import Mathlib

/-!
Folder pagination: a shallow embedding of `folders.go` and `folders_pagination.go`.

Go strings are byte sequences and are modelled as lists of byte values (`List Nat`).
The Go type `int` is the 64-bit signed integer; it is modelled as `Int`, and the one
addition of the program that can overflow is wrapped explicitly (`wrapInt`).
The standard-library functions the program calls (`strconv.Itoa`, `strconv.Atoi`,
`base64.StdEncoding.EncodeToString`, `base64.StdEncoding.DecodeString`) are embedded
from the Go standard library with the same control flow.
-/

namespace Folders

/-! ## Go runtime values -/

/-- A Go string: its bytes, in order. -/
abbrev GoString := List Nat

/-- The bytes of an ASCII text, used to write tokens down readably. -/
def bytes (s : String) : GoString := s.toList.map Char.toNat

/-- Smallest value of the 64-bit Go `int`. -/
def minInt : Int := -9223372036854775808

/-- Largest value of the 64-bit Go `int`. -/
def maxInt : Int := 9223372036854775807

/-- Two-complement wrap-around of a mathematical integer into the 64-bit `int`. -/
def wrapInt (x : Int) : Int := (x + 9223372036854775808) % 18446744073709551616 - 9223372036854775808

/-- The two sentinel errors of package strconv carried by a `*NumError`. -/
inductive NumErrKind where
  | invalidDigits
  | outOfRange
  deriving DecidableEq, Repr

/-- The error values that can reach the caller of this package.
`corruptInput pos` is `base64.CorruptInputError(pos)`,
`numError num kind` is `&strconv.NumError{Func: "Atoi", Num: num, Err: kind}`, and
`errorf pre cause` is `fmt.Errorf(pre + "%v", cause)`. -/
inductive GoError where
  | corruptInput (pos : Nat)
  | numError (num : GoString) (kind : NumErrKind)
  | errorf (pre : String) (cause : GoError)
  deriving DecidableEq, Repr

/-- The text of `err.Error()`. The quoting function of `strconv.Quote`, which only
decorates the offending input, is a parameter. -/
def GoError.Error (quote : GoString → String) : GoError → String
  | .corruptInput pos => "illegal base64 data at input byte " ++ toString pos
  | .numError num .invalidDigits => "strconv.Atoi: parsing " ++ quote num ++ ": invalid syntax"
  | .numError num .outOfRange => "strconv.Atoi: parsing " ++ quote num ++ ": value out of range"
  | .errorf pre cause => pre ++ cause.Error quote

deriving instance DecidableEq for Except

/-- What a call does: it returns a value, returns a non-nil error, or the runtime
aborts it with a panic (here always a slice-bounds panic). -/
inductive Outcome (α : Type) where
  | ok (val : α)
  | err (e : GoError)
  | panicked
  deriving DecidableEq, Repr

/-! ## strconv -/

/-- The digit loop of `strconv.formatBits` for base 10: the decimal digits of `u`
are written in front of `acc`, least significant digit first. `fuel` bounds the number
of digits (the Go buffer holds 65 bytes; a 64-bit value has at most 20 digits). -/
def formatBits : Nat → Nat → GoString → GoString
  | 0, _, acc => acc
  | fuel + 1, u, acc =>
    if u < 10 then (u + 48) :: acc
    else formatBits fuel (u / 10) ((u % 10 + 48) :: acc)

/-- `strconv.Itoa(i)`, that is `FormatInt(int64(i), 10)`: decimal digits, with a
leading minus sign for a negative value. -/
def Itoa (i : Int) : GoString :=
  if i < 0 then 45 :: formatBits 20 (-i).toNat [] else formatBits 20 i.toNat []

/-- The loop of the fast path of `strconv.Atoi`: `n = n*10 + int(ch - 48)`, failing on
a byte that is not a decimal digit. -/
def atoiFast : GoString → Nat → Option Nat
  | [], n => some n
  | ch :: rest, n => if 48 ≤ ch ∧ ch ≤ 57 then atoiFast rest (n * 10 + (ch - 48)) else none

/-- The loop of `strconv.ParseUint(s, 10, 64)`: digits are accumulated in a `uint64`,
with the two overflow checks of the library (`n >= cutoff` before multiplying, and
wrap-around of `n + d`). -/
def parseUintLoop : GoString → Nat → Except NumErrKind Nat
  | [], n => .ok n
  | c :: rest, n =>
    if 48 ≤ c ∧ c ≤ 57 then
      if n ≥ 18446744073709551615 / 10 + 1 then .error .outOfRange
      else
        let n10 := n * 10
        let n1 := (n10 + (c - 48)) % 18446744073709551616
        if n1 < n10 ∨ n1 > 18446744073709551615 then .error .outOfRange
        else parseUintLoop rest n1
    else .error .invalidDigits

/-- `strconv.ParseUint(s, 10, 0)`. -/
def ParseUint (s : GoString) : Except NumErrKind Nat :=
  if s = [] then .error .invalidDigits else parseUintLoop s 0

/-- `strconv.ParseInt(s, 10, 0)` as called by `Atoi`; errors carry the whole input. -/
def ParseInt (s : GoString) : Except GoError Int :=
  match s with
  | [] => .error (.numError s .invalidDigits)
  | c :: rest =>
    let neg := c = 45
    let body := if c = 43 ∨ c = 45 then rest else s
    match ParseUint body with
    | .error .invalidDigits => .error (.numError s .invalidDigits)
    | r =>
      let un : Nat := match r with
        | .ok n => n
        | .error _ => 18446744073709551615
      if ¬ neg ∧ un ≥ 9223372036854775808 then .error (.numError s .outOfRange)
      else if neg ∧ un > 9223372036854775808 then .error (.numError s .outOfRange)
      else .ok (if neg then -(un : Int) else (un : Int))

/-- `strconv.Atoi(s)` on a 64-bit platform: inputs of 1 to 18 bytes take the fast
path, all others go through `ParseInt`. -/
def Atoi (s : GoString) : Except GoError Int :=
  if 0 < s.length ∧ s.length < 19 then
    match s with
    | [] => .error (.numError s .invalidDigits)
    | c :: rest =>
      let body := if c = 45 ∨ c = 43 then rest else s
      if body.length < 1 then .error (.numError s .invalidDigits)
      else
        match atoiFast body 0 with
        | none => .error (.numError s .invalidDigits)
        | some n => .ok (if c = 45 then -(n : Int) else (n : Int))
  else ParseInt s

/-! ## encoding/base64, standard encoding -/

/-- The alphabet of `base64.StdEncoding`. -/
def encodeStd : GoString :=
  bytes "ABCDEFGHIJKLMNOPQRSTUVWXYZabcdefghijklmnopqrstuvwxyz0123456789+/"

/-- `enc.encode[i]`. -/
def encodeByte (i : Nat) : Nat := encodeStd.getD i 0

/-- `enc.decodeMap[c]`, with `none` for the marker byte 0xff of an invalid input byte. -/
def decodeMap (c : Nat) : Option Nat :=
  let i := encodeStd.indexOf c
  if i < 64 then some i else none

/-- `Encoding.EncodeToString` for the padded standard encoding: three bytes become
four characters; a remainder of one or two bytes is padded with `=`. -/
def EncodeToString : GoString → GoString
  | [] => []
  | [a] =>
    let val := a * 65536
    [encodeByte (val / 262144 % 64), encodeByte (val / 4096 % 64), 61, 61]
  | [a, b] =>
    let val := a * 65536 + b * 256
    [encodeByte (val / 262144 % 64), encodeByte (val / 4096 % 64), encodeByte (val / 64 % 64), 61]
  | a :: b :: c :: rest =>
    let val := a * 65536 + b * 256 + c
    [encodeByte (val / 262144 % 64), encodeByte (val / 4096 % 64), encodeByte (val / 64 % 64),
      encodeByte (val % 64)] ++ EncodeToString rest

/-- Line feed and carriage return, which the decoder skips. -/
def isNewline (c : Nat) : Bool := c = 10 ∨ c = 13

/-- The bytes a quantum of `dlen` six-bit values yields (`dlen - 1` bytes), as at the
end of `decodeQuantum`. -/
def quantumBytes (dbuf : List Nat) (dlen : Nat) : GoString :=
  let val := dbuf.getD 0 0 * 262144 + dbuf.getD 1 0 * 4096 + dbuf.getD 2 0 * 64 + dbuf.getD 3 0
  [val / 65536 % 256, val / 256 % 256, val % 256].take (dlen - 1)

/-- What follows the first padding byte of a quantum: newlines are skipped, and
input left over is trailing garbage. `rest` is the input after the padding, `si` its
position, `out` the output with this quantum included. -/
def afterPadding (rest : GoString) (si : Nat) (out : GoString) : GoString × Option GoError :=
  let rest1 := rest.dropWhile isNewline
  if rest1 = [] then (out, none)
  else (out, some (.corruptInput (si + (rest.length - rest1.length))))

/-- The loop of `Encoding.Decode` with `decodeQuantum` inlined, for the padded,
non-strict standard encoding. `total` is `len(src)`, `si` the position of the next
input byte, `dbuf` the six-bit values of the open quantum and `out` the bytes decoded
so far. The result is the decoded bytes and the error, if any. -/
def decodeLoop (total : Nat) : GoString → Nat → List Nat → GoString → GoString × Option GoError
  | [], si, dbuf, out =>
    if dbuf.length = 0 then (out, none)
    else (out, some (.corruptInput (si - dbuf.length)))
  | c :: rest, si, dbuf, out =>
    match decodeMap c with
    | some v =>
      if dbuf.length = 3 then decodeLoop total rest (si + 1) [] (out ++ quantumBytes (dbuf ++ [v]) 4)
      else decodeLoop total rest (si + 1) (dbuf ++ [v]) out
    | none =>
      if isNewline c then decodeLoop total rest (si + 1) dbuf out
      else if c ≠ 61 then (out, some (.corruptInput si))
      else if dbuf.length < 2 then (out, some (.corruptInput si))
      else if dbuf.length = 2 then
        let rest1 := rest.dropWhile isNewline
        let si1 := si + 1 + (rest.length - rest1.length)
        match rest1 with
        | [] => (out, some (.corruptInput total))
        | d :: rest2 =>
          if d ≠ 61 then (out, some (.corruptInput (si1 - 1)))
          else afterPadding rest2 (si1 + 1) (out ++ quantumBytes dbuf 2)
      else afterPadding rest (si + 1) (out ++ quantumBytes dbuf 3)

/-- `base64.StdEncoding.DecodeString(s)`: the decoded bytes and the error, if any. -/
def DecodeString (s : GoString) : GoString × Option GoError :=
  decodeLoop s.length s 0 [] []

/-! ## folders_pagination.go: the token codec -/

/-- Source function `encodePageToken`: converts an index to a base64-encoded string. -/
def encodePageToken (index : Int) : GoString :=
  EncodeToString (Itoa index)

/-- Source function `decodePageToken`: converts a base64-encoded string back to an index. -/
def decodePageToken (token : GoString) : Except GoError Int :=
  match DecodeString token with
  | (_, some err) => .error err
  | (decoded, none) => Atoi decoded

/-! ## folders.go and folders_pagination.go: data model -/

/-- A `uuid.UUID`, a 16-byte array, as the number its bytes denote; the program only
compares UUIDs for equality. -/
abbrev UUID := Nat

/-- Modelled from the spec: the record type `Folder` is declared outside the given
sources. Section 3 of the specification describes it as an opaque record with at
least an organization-identifier field and an identity distinguishable for equality
checks; the program reads only `OrgId`. -/
structure Folder where
  Id : UUID
  OrgId : UUID
  deriving DecidableEq, Repr

/-- Modelled from the spec: the type `FetchFolderRequest` is declared outside the
given sources; `OrgID` is the one field the code and its tests use. -/
structure FetchFolderRequest where
  OrgID : UUID
  deriving DecidableEq, Repr

/-- Modelled from the spec: the type `FetchFolderResponse` is declared outside the
given sources; `Folders` is the one field the code and its tests use. -/
structure FetchFolderResponse where
  Folders : List Folder
  deriving DecidableEq, Repr

/-- Source constant `DefaultPageSize`. -/
def DefaultPageSize : Int := 10

/-- Source type `PaginatedFetchFolderRequest`. -/
structure PaginatedFetchFolderRequest where
  OrgID : UUID
  PageToken : GoString
  PageSize : Int
  deriving DecidableEq, Repr

/-- Source type `PaginatedFetchFolderResponse`. -/
structure PaginatedFetchFolderResponse where
  Folders : List Folder
  NextToken : GoString
  deriving DecidableEq, Repr

/-- The Go slice expression `s[lo:hi]`: the runtime panics (`none`) unless
`0 <= lo <= hi <= cap(s)`. The capacity is taken to be the length; the program only
slices with `hi <= len(s)`, where the two agree. -/
def sliceExpr {α : Type} (s : List α) (lo hi : Int) : Option (List α) :=
  if 0 ≤ lo ∧ lo ≤ hi ∧ hi ≤ (s.length : Int) then
    some ((s.drop lo.toNat).take (hi.toNat - lo.toNat))
  else none

/-! ## folders.go -/

/-- Source function `FetchAllFoldersByOrgID`. The result of `GetSampleData()`, which is
declared outside the given sources, is the parameter `sampleData`. The loop appends
every folder whose `OrgId` is `orgID`; the error returned is always nil. -/
def FetchAllFoldersByOrgID (sampleData : List Folder) (orgID : UUID) :
    Except GoError (List Folder) :=
  .ok (sampleData.foldl
    (fun resFolder folder => if folder.OrgId = orgID then resFolder ++ [folder] else resFolder) [])

/-- Source function `GetAllFolders`. -/
def GetAllFolders (sampleData : List Folder) (req : FetchFolderRequest) :
    Except GoError FetchFolderResponse :=
  match FetchAllFoldersByOrgID sampleData req.OrgID with
  | .error err => .error err
  | .ok folders => .ok { Folders := folders }

/-! ## folders_pagination.go -/

/-- Source function `GetPaginatedFolders`. The function writes to the request it is
given, so the result is the request after the call together with the outcome. -/
def GetPaginatedFolders (sampleData : List Folder) (req : PaginatedFetchFolderRequest) :
    PaginatedFetchFolderRequest × Outcome PaginatedFetchFolderResponse :=
  match FetchAllFoldersByOrgID sampleData req.OrgID with
  | .error err => (req, .err err)
  | .ok allFolders =>
    let req := if req.PageSize ≤ 0 then { req with PageSize := DefaultPageSize } else req
    let decoded : Except GoError Int :=
      if req.PageToken ≠ [] then decodePageToken req.PageToken else .ok 0
    match decoded with
    | .error err => (req, .err (.errorf "invalid page token: " err))
    | .ok startIndex =>
      let endIndex := wrapInt (startIndex + req.PageSize)
      let endIndex := if endIndex > (allFolders.length : Int) then (allFolders.length : Int) else endIndex
      match sliceExpr allFolders startIndex endIndex with
      | none => (req, .panicked)
      | some paginatedFolders =>
        let nextToken := if endIndex < (allFolders.length : Int) then encodePageToken endIndex else []
        (req, .ok { Folders := paginatedFolders, NextToken := nextToken })

/-! ## folders_test.go: the traversal of `FetchAllPages` -/

/-- The loop of the test `FetchAllPages`: the request is reused, its `PageToken` is set
to the last `NextToken` (initially empty) before each call, the folders of each
response are appended, and the loop ends when `NextToken` is empty. `fuel` bounds the
number of calls (`none`: the bound was reached); a call that fails ends the loop. -/
def fetchAllPages (sampleData : List Folder) :
    Nat → PaginatedFetchFolderRequest → GoString → List Folder → Option (Outcome (List Folder))
  | 0, _, _, _ => none
  | fuel + 1, req, nextToken, allFolders =>
    match GetPaginatedFolders sampleData { req with PageToken := nextToken } with
    | (_, .err e) => some (.err e)
    | (_, .panicked) => some .panicked
    | (req1, .ok response) =>
      if response.NextToken = [] then some (.ok (allFolders ++ response.Folders))
      else fetchAllPages sampleData fuel req1 response.NextToken (allFolders ++ response.Folders)

/-- The loop of the test `FetchAllPages` once more, with one addition: the `PageToken` of
every call is recorded, in call order, next to the folders collected. `fuel` bounds the
number of calls as in `fetchAllPages`. -/
def fetchAllPagesCalls (sampleData : List Folder) :
    Nat → PaginatedFetchFolderRequest → GoString → List Folder → List GoString →
      Option (Outcome (List Folder × List GoString))
  | 0, _, _, _, _ => none
  | fuel + 1, req, nextToken, allFolders, tokens =>
    match GetPaginatedFolders sampleData { req with PageToken := nextToken } with
    | (_, .err e) => some (.err e)
    | (_, .panicked) => some .panicked
    | (req1, .ok response) =>
      if response.NextToken = [] then
        some (.ok (allFolders ++ response.Folders, tokens ++ [nextToken]))
      else
        fetchAllPagesCalls sampleData fuel req1 response.NextToken
          (allFolders ++ response.Folders) (tokens ++ [nextToken])

/-! ## Character classes used to state properties of tokens -/

/-- ASCII letters and digits. -/
def isAlnum (c : Nat) : Prop :=
  (48 ≤ c ∧ c ≤ 57) ∨ (65 ≤ c ∧ c ≤ 90) ∨ (97 ≤ c ∧ c ≤ 122)

instance (c : Nat) : Decidable (isAlnum c) :=
  inferInstanceAs (Decidable ((48 ≤ c ∧ c ≤ 57) ∨ (65 ≤ c ∧ c ≤ 90) ∨ (97 ≤ c ∧ c ≤ 122)))

/-- The unreserved characters of RFC 3986: letters, digits, and the four marks
hyphen (45), period (46), underscore (95) and tilde (126). -/
def isUnreserved (c : Nat) : Prop :=
  isAlnum c ∨ c = 45 ∨ c = 46 ∨ c = 95 ∨ c = 126

instance (c : Nat) : Decidable (isUnreserved c) :=
  inferInstanceAs (Decidable (isAlnum c ∨ c = 45 ∨ c = 46 ∨ c = 95 ∨ c = 126))

/-! ## Sample data for concrete instances -/

/-- Six folders of organization 7, with ids 1 to 6. -/
def sixFolders : List Folder :=
  (List.range 6).map (fun i => { Id := i + 1, OrgId := 7 })

/-- Ten folders, all of organization 1. -/
def tenFolders : List Folder :=
  (List.range 10).map (fun i => { Id := i, OrgId := 1 })

/-! ## Helper lemmas: the full fetch -/

theorem foldl_append_filter (orgID : UUID) (l acc : List Folder) :
    l.foldl (fun resFolder folder => if folder.OrgId = orgID then resFolder ++ [folder] else resFolder) acc
      = acc ++ l.filter (fun f => decide (f.OrgId = orgID)) := by
  induction l generalizing acc with
  | nil => simp
  | cons f l ih =>
    by_cases h : f.OrgId = orgID
    · simp [List.foldl_cons, ih, h, List.filter_cons]
    · simp [List.foldl_cons, ih, h, List.filter_cons]

theorem fetch_eq_filter (sampleData : List Folder) (orgID : UUID) :
    FetchAllFoldersByOrgID sampleData orgID
      = .ok (sampleData.filter (fun f => decide (f.OrgId = orgID))) := by
  simp [FetchAllFoldersByOrgID, foldl_append_filter]

/-! ## Helper lemmas: strconv -/

theorem formatBits_mem (fuel u : Nat) (acc : GoString) :
    ∀ x ∈ formatBits fuel u acc, x ∈ acc ∨ (48 ≤ x ∧ x ≤ 57) := by
  induction fuel generalizing u acc with
  | zero => intro x hx; exact Or.inl (by simpa [formatBits] using hx)
  | succ fuel ih =>
    intro x hx
    unfold formatBits at hx
    split at hx
    · rcases List.mem_cons.mp hx with h | h
      · right; omega
      · exact Or.inl h
    · rcases ih _ _ x hx with h | h
      · rcases List.mem_cons.mp h with h | h
        · right; omega
        · exact Or.inl h
      · exact Or.inr h

theorem formatBits_ne_nil (fuel u : Nat) (acc : GoString) :
    formatBits (fuel + 1) u acc ≠ [] := by
  induction fuel generalizing u acc with
  | zero =>
    unfold formatBits
    split
    · simp
    · simp [formatBits]
  | succ fuel ih =>
    unfold formatBits
    split
    · simp
    · exact ih _ _

theorem atoiFast_formatBits (fuel u : Nat) (acc : GoString) (h : u < 10 ^ fuel) :
    atoiFast (formatBits fuel u acc) 0 = atoiFast acc u := by
  induction fuel generalizing u acc with
  | zero =>
    have : u = 0 := by simpa using h
    simp [formatBits, this]
  | succ fuel ih =>
    unfold formatBits
    split
    · rename_i h10
      have h1 : 48 ≤ u + 48 ∧ u + 48 ≤ 57 := by omega
      simp [atoiFast, h1]
    · rename_i h10
      have hlt : u / 10 < 10 ^ fuel := by
        rw [Nat.div_lt_iff_lt_mul (by norm_num)]
        rw [pow_succ] at h
        exact h
      rw [ih _ _ hlt]
      have h1 : 48 ≤ u % 10 + 48 ∧ u % 10 + 48 ≤ 57 := by omega
      have h2 : u / 10 * 10 + (u % 10 + 48 - 48) = u := by omega
      rw [atoiFast, if_pos h1, h2]

theorem parseUintLoop_formatBits (fuel u : Nat) (acc : GoString) (h : u < 10 ^ fuel)
    (hu : u < 18446744073709551616) :
    parseUintLoop (formatBits fuel u acc) 0 = parseUintLoop acc u := by
  induction fuel generalizing u acc with
  | zero =>
    have : u = 0 := by simpa using h
    simp [formatBits, this]
  | succ fuel ih =>
    unfold formatBits
    split
    · rename_i h10
      have h1 : 48 ≤ u + 48 ∧ u + 48 ≤ 57 := by omega
      have h2 : (0 * 10 + (u + 48 - 48)) % 18446744073709551616 = u := by omega
      have h3 : ¬ (0 ≥ 18446744073709551615 / 10 + 1) := by omega
      have h4 : ¬ (u < 0 * 10 ∨ u > 18446744073709551615) := by omega
      rw [parseUintLoop, if_pos h1, if_neg h3]
      dsimp only
      rw [h2, if_neg h4]
    · rename_i h10
      have hlt : u / 10 < 10 ^ fuel := by
        rw [Nat.div_lt_iff_lt_mul (by norm_num)]
        rw [pow_succ] at h
        exact h
      rw [ih _ _ hlt (by omega)]
      have h1 : 48 ≤ u % 10 + 48 ∧ u % 10 + 48 ≤ 57 := by omega
      have h2 : (u / 10 * 10 + (u % 10 + 48 - 48)) % 18446744073709551616 = u := by omega
      have h3 : ¬ (u / 10 ≥ 18446744073709551615 / 10 + 1) := by omega
      have h4 : ¬ (u < u / 10 * 10 ∨ u > 18446744073709551615) := by omega
      rw [parseUintLoop, if_pos h1, if_neg h3]
      dsimp only
      rw [h2, if_neg h4]

/-- Parsing the decimal rendering of a non-negative `int` gives the value back. -/
theorem Atoi_Itoa (n : Int) (h0 : 0 ≤ n) (hmax : n ≤ maxInt) : Atoi (Itoa n) = .ok n := by
  obtain ⟨u, rfl⟩ := Int.eq_ofNat_of_zero_le h0
  have hu : u < 9223372036854775808 := by
    unfold maxInt at hmax; omega
  have hItoa : Itoa (u : Int) = formatBits 20 u [] := by
    simp [Itoa]
  rw [hItoa]
  have hpow : u < 10 ^ 20 := by
    have : (9223372036854775808 : Nat) < 10 ^ 20 := by norm_num
    omega
  have hne : formatBits 20 u [] ≠ [] := formatBits_ne_nil 19 u []
  have hfast : atoiFast (formatBits 20 u []) 0 = some u := by
    rw [atoiFast_formatBits 20 u [] hpow]; rfl
  have hslow : parseUintLoop (formatBits 20 u []) 0 = .ok u := by
    rw [parseUintLoop_formatBits 20 u [] hpow (by omega)]; rfl
  have hmem := formatBits_mem 20 u []
  cases hs : formatBits 20 u [] with
  | nil => exact absurd hs hne
  | cons c rest =>
    rw [hs] at hfast hslow hmem
    have hc : 48 ≤ c ∧ c ≤ 57 := by
      rcases hmem c (List.mem_cons_self _ _) with h | h
      · simp at h
      · exact h
    have hc45 : c ≠ 45 := by omega
    have hc43 : c ≠ 43 := by omega
    unfold Atoi
    split
    · simp [hc45, hc43, hfast]
    · simp [ParseInt, ParseUint, hc45, hc43, hslow]
      omega

/-! ## Helper lemmas: base64 -/

theorem decodeMap_encodeByte : ∀ i, i < 64 → decodeMap (encodeByte i) = some i := by
  decide

theorem quantum4 (a b c : Nat) (ha : a < 256) (hb : b < 256) (hc : c < 256) :
    quantumBytes [(a * 65536 + b * 256 + c) / 262144 % 64, (a * 65536 + b * 256 + c) / 4096 % 64,
      (a * 65536 + b * 256 + c) / 64 % 64, (a * 65536 + b * 256 + c) % 64] 4 = [a, b, c] := by
  simp only [quantumBytes, List.getD_cons_zero, List.getD_cons_succ, List.take]
  congr 1
  · omega
  · congr 1
    · omega
    · congr 1
      omega

theorem quantum3 (a b : Nat) (ha : a < 256) (hb : b < 256) :
    quantumBytes [(a * 65536 + b * 256) / 262144 % 64, (a * 65536 + b * 256) / 4096 % 64,
      (a * 65536 + b * 256) / 64 % 64] 3 = [a, b] := by
  simp only [quantumBytes, List.getD_cons_zero, List.getD_cons_succ, List.getD_nil, List.take]
  congr 1
  · omega
  · congr 1
    omega

theorem quantum2 (a : Nat) (ha : a < 256) :
    quantumBytes [(a * 65536) / 262144 % 64, (a * 65536) / 4096 % 64] 2 = [a] := by
  simp only [quantumBytes, List.getD_cons_zero, List.getD_cons_succ, List.getD_nil, List.take]
  congr 1
  omega

/-- One decoding step on a byte of the alphabet. -/
theorem decodeLoop_valid (total : Nat) (c v : Nat) (rest : GoString) (si : Nat) (dbuf : List Nat)
    (out : GoString) (h : decodeMap c = some v) :
    decodeLoop total (c :: rest) si dbuf out =
      if dbuf.length = 3 then decodeLoop total rest (si + 1) [] (out ++ quantumBytes (dbuf ++ [v]) 4)
      else decodeLoop total rest (si + 1) (dbuf ++ [v]) out := by
  rw [decodeLoop, h]

theorem decodeMap_pad : decodeMap 61 = none := by decide

/-- Decoding what the encoder produced gives the bytes back, without error. -/
theorem decodeLoop_EncodeToString (total : Nat) (bs : GoString) (hbs : ∀ b ∈ bs, b < 256) :
    ∀ (si : Nat) (out : GoString),
      decodeLoop total (EncodeToString bs) si [] out = (out ++ bs, none) := by
  induction bs using EncodeToString.induct with
  | case1 => intro si out; simp [EncodeToString, decodeLoop]
  | case2 a =>
    intro si out
    have ha : a < 256 := hbs a (by simp)
    have e1 := decodeMap_encodeByte (a * 65536 / 262144 % 64) (Nat.mod_lt _ (by norm_num))
    have e2 := decodeMap_encodeByte (a * 65536 / 4096 % 64) (Nat.mod_lt _ (by norm_num))
    simp only [EncodeToString]
    simp only [decodeLoop_valid _ _ _ _ _ _ _ e1, decodeLoop_valid _ _ _ _ _ _ _ e2,
      List.length_nil, List.nil_append, List.length_singleton, List.singleton_append,
      List.length_cons, List.cons_append, Nat.reduceEqDiff, if_false, if_true, OfNat.zero_ne_ofNat, Nat.reduceAdd]
    rw [decodeLoop, decodeMap_pad]
    simp [isNewline, afterPadding, quantum2 a ha]
  | case3 a b =>
    intro si out
    have ha : a < 256 := hbs a (by simp)
    have hb : b < 256 := hbs b (by simp)
    have e1 := decodeMap_encodeByte ((a * 65536 + b * 256) / 262144 % 64) (Nat.mod_lt _ (by norm_num))
    have e2 := decodeMap_encodeByte ((a * 65536 + b * 256) / 4096 % 64) (Nat.mod_lt _ (by norm_num))
    have e3 := decodeMap_encodeByte ((a * 65536 + b * 256) / 64 % 64) (Nat.mod_lt _ (by norm_num))
    simp only [EncodeToString]
    simp only [decodeLoop_valid _ _ _ _ _ _ _ e1, decodeLoop_valid _ _ _ _ _ _ _ e2,
      decodeLoop_valid _ _ _ _ _ _ _ e3,
      List.length_nil, List.nil_append, List.length_singleton, List.singleton_append,
      List.length_cons, List.cons_append, Nat.reduceEqDiff, if_false, if_true, OfNat.zero_ne_ofNat, Nat.reduceAdd]
    rw [decodeLoop, decodeMap_pad]
    simp [isNewline, afterPadding, quantum3 a b ha hb]
  | case4 a b c rest ih =>
    intro si out
    have ha : a < 256 := hbs a (by simp)
    have hb : b < 256 := hbs b (by simp)
    have hc : c < 256 := hbs c (by simp)
    have hrest : ∀ x ∈ rest, x < 256 := fun x hx => hbs x (by simp [hx])
    have e1 := decodeMap_encodeByte ((a * 65536 + b * 256 + c) / 262144 % 64) (Nat.mod_lt _ (by norm_num))
    have e2 := decodeMap_encodeByte ((a * 65536 + b * 256 + c) / 4096 % 64) (Nat.mod_lt _ (by norm_num))
    have e3 := decodeMap_encodeByte ((a * 65536 + b * 256 + c) / 64 % 64) (Nat.mod_lt _ (by norm_num))
    have e4 := decodeMap_encodeByte ((a * 65536 + b * 256 + c) % 64) (Nat.mod_lt _ (by norm_num))
    simp only [EncodeToString, List.cons_append, List.nil_append]
    simp only [decodeLoop_valid _ _ _ _ _ _ _ e1, decodeLoop_valid _ _ _ _ _ _ _ e2,
      decodeLoop_valid _ _ _ _ _ _ _ e3, decodeLoop_valid _ _ _ _ _ _ _ e4,
      List.length_nil, List.nil_append, List.length_singleton, List.singleton_append,
      List.length_cons, List.cons_append, Nat.reduceEqDiff, if_false, if_true, OfNat.zero_ne_ofNat, Nat.reduceAdd]
    rw [quantum4 a b c ha hb hc, ih hrest]
    simp

theorem DecodeString_EncodeToString (bs : GoString) (hbs : ∀ b ∈ bs, b < 256) :
    DecodeString (EncodeToString bs) = (bs, none) := by
  unfold DecodeString
  rw [decodeLoop_EncodeToString _ bs hbs]
  simp

theorem Itoa_bytes (n : Int) : ∀ b ∈ Itoa n, b < 256 := by
  intro b hb
  unfold Itoa at hb
  split at hb
  · rcases List.mem_cons.mp hb with h | h
    · omega
    · rcases formatBits_mem _ _ _ b h with h | h
      · simp at h
      · omega
  · rcases formatBits_mem _ _ _ b hb with h | h
    · simp at h
    · omega

/-- The codec round trip behind every continuation token. -/
theorem decode_encode (n : Int) (h0 : 0 ≤ n) (hmax : n ≤ maxInt) :
    decodePageToken (encodePageToken n) = .ok n := by
  unfold decodePageToken encodePageToken
  rw [DecodeString_EncodeToString _ (Itoa_bytes n)]
  exact Atoi_Itoa n h0 hmax

theorem EncodeToString_ne_nil (bs : GoString) (h : bs ≠ []) : EncodeToString bs ≠ [] := by
  match bs, h with
  | [_], _ => simp [EncodeToString]
  | [_, _], _ => simp [EncodeToString]
  | _ :: _ :: _ :: _, _ => simp [EncodeToString]

theorem Itoa_ne_nil (n : Int) : Itoa n ≠ [] := by
  unfold Itoa
  split
  · simp
  · exact formatBits_ne_nil 19 _ _

theorem encodePageToken_ne_nil (n : Int) : encodePageToken n ≠ [] :=
  EncodeToString_ne_nil _ (Itoa_ne_nil n)

/-! ## Helper lemmas: one paginated call -/

theorem wrapInt_of_range (x : Int) (h0 : minInt ≤ x) (h1 : x ≤ maxInt) : wrapInt x = x := by
  unfold minInt at h0
  unfold maxInt at h1
  unfold wrapInt
  omega

/-- The request after the defaulting step of `GetPaginatedFolders`. -/
theorem defaulted_request (req : PaginatedFetchFolderRequest) :
    (if req.PageSize ≤ 0 then { req with PageSize := DefaultPageSize } else req)
      = { req with PageSize := if req.PageSize ≤ 0 then DefaultPageSize else req.PageSize } := by
  split <;> rfl

/-- A call whose start offset is `start`, whatever the outcome of slicing: the body of
`GetPaginatedFolders` after the token has been decoded. -/
theorem getPaginated_from_start (sampleData : List Folder) (req : PaginatedFetchFolderRequest)
    (allFolders : List Folder) (start : Int)
    (hall : FetchAllFoldersByOrgID sampleData req.OrgID = .ok allFolders)
    (hstart : (if req.PageToken ≠ [] then decodePageToken req.PageToken else .ok 0) = .ok start) :
    GetPaginatedFolders sampleData req
      = ({ req with PageSize := if req.PageSize ≤ 0 then DefaultPageSize else req.PageSize },
          match sliceExpr allFolders start
            (if wrapInt (start + (if req.PageSize ≤ 0 then DefaultPageSize else req.PageSize))
                > (allFolders.length : Int) then (allFolders.length : Int)
              else wrapInt (start + (if req.PageSize ≤ 0 then DefaultPageSize else req.PageSize))) with
          | none => .panicked
          | some paginatedFolders =>
            .ok { Folders := paginatedFolders,
                  NextToken :=
                    if (if wrapInt (start + (if req.PageSize ≤ 0 then DefaultPageSize else req.PageSize))
                          > (allFolders.length : Int) then (allFolders.length : Int)
                        else wrapInt (start + (if req.PageSize ≤ 0 then DefaultPageSize else req.PageSize)))
                        < (allFolders.length : Int)
                    then encodePageToken
                      (if wrapInt (start + (if req.PageSize ≤ 0 then DefaultPageSize else req.PageSize))
                          > (allFolders.length : Int) then (allFolders.length : Int)
                        else wrapInt (start + (if req.PageSize ≤ 0 then DefaultPageSize else req.PageSize)))
                    else [] }) := by
  unfold GetPaginatedFolders
  rw [hall]
  dsimp only
  rw [defaulted_request]
  dsimp only
  rw [hstart]
  dsimp only
  split <;> rfl

/-- A call with an in-range start offset and no overflow returns the window
`allFolders[start : min(start + p, len)]` and follows the next-token rule. -/
theorem getPaginated_window (sampleData : List Folder) (req : PaginatedFetchFolderRequest)
    (allFolders : List Folder) (start p : Int)
    (hall : FetchAllFoldersByOrgID sampleData req.OrgID = .ok allFolders)
    (hstart : (if req.PageToken ≠ [] then decodePageToken req.PageToken else .ok 0) = .ok start)
    (hp : p = if req.PageSize ≤ 0 then DefaultPageSize else req.PageSize)
    (h0 : 0 ≤ start) (hlen : start ≤ (allFolders.length : Int)) (hov : start + p ≤ maxInt) :
    GetPaginatedFolders sampleData req
      = ({ req with PageSize := p },
          .ok { Folders := (allFolders.drop start.toNat).take p.toNat,
                NextToken := if start + p < (allFolders.length : Int)
                  then encodePageToken (start + p) else [] }) := by
  rw [getPaginated_from_start sampleData req allFolders start hall hstart, ← hp]
  have hp1 : 1 ≤ p := by
    rw [hp]; unfold DefaultPageSize; split <;> omega
  have hw : wrapInt (start + p) = start + p :=
    wrapInt_of_range _ (by unfold minInt; omega) hov
  rw [hw]
  by_cases hgt : start + p > (allFolders.length : Int)
  · rw [if_pos hgt]
    have hs : sliceExpr allFolders start (allFolders.length : Int)
        = some ((allFolders.drop start.toNat).take p.toNat) := by
      unfold sliceExpr
      rw [if_pos ⟨h0, hlen, le_refl _⟩]
      congr 1
      rw [List.take_of_length_le, List.take_of_length_le]
      · rw [List.length_drop]; omega
      · rw [List.length_drop]; omega
    rw [hs]
    simp only [lt_self_iff_false, if_false]
    rw [if_neg (by omega)]
  · rw [if_neg hgt]
    have hs : sliceExpr allFolders start (start + p)
        = some ((allFolders.drop start.toNat).take p.toNat) := by
      unfold sliceExpr
      rw [if_pos ⟨h0, by omega, by omega⟩]
      congr 2
      omega
    rw [hs]

/-! ## Helper lemmas: the range of decoded offsets -/

theorem atoiFast_lt (l : GoString) (n0 n : Nat) (h : atoiFast l n0 = some n) :
    n < (n0 + 1) * 10 ^ l.length := by
  induction l generalizing n0 with
  | nil =>
    simp only [atoiFast, Option.some.injEq] at h
    simp only [List.length_nil, pow_zero, mul_one]
    omega
  | cons ch rest ih =>
    unfold atoiFast at h
    split at h
    · rename_i hd
      have h1 := ih _ h
      have h2 : n0 * 10 + (ch - 48) + 1 ≤ (n0 + 1) * 10 := by omega
      calc n < (n0 * 10 + (ch - 48) + 1) * 10 ^ rest.length := h1
        _ ≤ ((n0 + 1) * 10) * 10 ^ rest.length := Nat.mul_le_mul_right _ h2
        _ = (n0 + 1) * 10 ^ (ch :: rest).length := by
          rw [List.length_cons, pow_succ]; ring
    · exact absurd h (by simp)

theorem ParseInt_range (s : GoString) (n : Int) (h : ParseInt s = .ok n) :
    minInt ≤ n ∧ n ≤ maxInt := by
  unfold ParseInt at h
  cases s with
  | nil => exact absurd h (by simp)
  | cons c rest =>
    dsimp only at h
    generalize ParseUint (if c = 43 ∨ c = 45 then rest else c :: rest) = r at h
    unfold minInt maxInt
    rcases r with k | u
    · cases k with
      | invalidDigits => exact absurd h (by simp)
      | outOfRange =>
        dsimp only at h
        split_ifs at h <;> simp only [Except.ok.injEq, reduceCtorEq] at h <;> omega
    · dsimp only at h
      split_ifs at h <;> simp only [Except.ok.injEq, reduceCtorEq] at h <;> omega

theorem Atoi_range (s : GoString) (n : Int) (h : Atoi s = .ok n) :
    minInt ≤ n ∧ n ≤ maxInt := by
  unfold Atoi at h
  by_cases hl : 0 < s.length ∧ s.length < 19
  · rw [if_pos hl] at h
    cases s with
    | nil => exact absurd h (by simp)
    | cons c rest =>
      dsimp only at h
      by_cases hb : (if c = 45 ∨ c = 43 then rest else c :: rest).length < 1
      · rw [if_pos hb] at h
        exact absurd h (by simp)
      · rw [if_neg hb] at h
        cases hu : atoiFast (if c = 45 ∨ c = 43 then rest else c :: rest) 0 with
        | none => rw [hu] at h; exact absurd h (by simp)
        | some u =>
          rw [hu] at h
          have hlt := atoiFast_lt _ _ _ hu
          have hlen : (if c = 45 ∨ c = 43 then rest else c :: rest).length ≤ 18 := by
            have := hl.2
            simp only [List.length_cons] at this
            split
            · omega
            · simp only [List.length_cons]; omega
          have hpow : 10 ^ (if c = 45 ∨ c = 43 then rest else c :: rest).length ≤ 10 ^ 18 :=
            Nat.pow_le_pow_right (by norm_num) hlen
          have h18 : (10 : Nat) ^ 18 = 1000000000000000000 := by norm_num
          rw [h18] at hpow
          simp only [Except.ok.injEq, zero_add, one_mul] at h hlt
          unfold minInt maxInt
          split_ifs at h <;> omega
  · rw [if_neg hl] at h
    exact ParseInt_range s n h

theorem decodePageToken_range (token : GoString) (n : Int) (h : decodePageToken token = .ok n) :
    minInt ≤ n ∧ n ≤ maxInt := by
  unfold decodePageToken at h
  split at h
  · exact absurd h (by simp)
  · exact Atoi_range _ n h

/-! ## Helper lemmas: the traversal -/

theorem getAll_eq (sampleData : List Folder) (req : FetchFolderRequest) :
    GetAllFolders sampleData req
      = .ok { Folders := sampleData.filter (fun f => decide (f.OrgId = req.OrgID)) } := by
  simp [GetAllFolders, fetch_eq_filter]

theorem fetch_of_getAll (sampleData : List Folder) (orgID : UUID) (allFolders : List Folder)
    (h : GetAllFolders sampleData { OrgID := orgID } = .ok { Folders := allFolders }) :
    FetchAllFoldersByOrgID sampleData orgID = .ok allFolders := by
  rw [getAll_eq] at h
  rw [fetch_eq_filter]
  simp only [Except.ok.injEq, FetchFolderResponse.mk.injEq] at h
  rw [h]

/-- The traversal resumed at offset `start`: it ends within `len - start + 1` calls and
appends exactly the folders from `start` on. -/
theorem fetchAllPages_from (sampleData : List Folder) (orgID : UUID) (allFolders : List Folder)
    (p : Int) (hall : FetchAllFoldersByOrgID sampleData orgID = .ok allFolders)
    (hp1 : 1 ≤ p) (hbound : allFolders.length ≤ 4611686018427387904) :
    ∀ (fuel : Nat) (req : PaginatedFetchFolderRequest) (token : GoString) (start : Int)
      (acc : List Folder),
      req.OrgID = orgID →
      (p = if req.PageSize ≤ 0 then DefaultPageSize else req.PageSize) →
      (if token ≠ [] then decodePageToken token else .ok 0) = .ok start →
      0 ≤ start → start ≤ (allFolders.length : Int) → start + p ≤ maxInt →
      (allFolders.length : Int) - start < fuel →
      fetchAllPages sampleData fuel req token acc = some (.ok (acc ++ allFolders.drop start.toNat)) := by
  intro fuel
  induction fuel with
  | zero => intro req token start acc _ _ _ h0 hlen _ hfuel; omega
  | succ fuel ih =>
    intro req token start acc horg hp hstart h0 hlen hov hfuel
    have hcall := getPaginated_window sampleData { req with PageToken := token } allFolders start p
      (by rw [← horg] at hall; exact hall) hstart hp h0 hlen hov
    unfold fetchAllPages
    rw [hcall]
    dsimp only
    by_cases hmore : start + p < (allFolders.length : Int)
    · rw [if_pos hmore, if_neg (encodePageToken_ne_nil _)]
      have hmax : start + p ≤ maxInt := hov
      have hnext := ih { req with PageToken := token, PageSize := p } (encodePageToken (start + p))
        (start + p) (acc ++ (allFolders.drop start.toNat).take p.toNat) horg
        (by dsimp only; rw [if_neg (by omega)])
        (by rw [if_pos (encodePageToken_ne_nil _)]; exact decode_encode _ (by omega) hmax)
        (by omega) (by omega) (by unfold maxInt; omega) (by omega)
      rw [hnext]
      congr 2
      rw [List.append_assoc]
      congr 1
      have hsplit : (start + p).toNat = start.toNat + p.toNat := by omega
      rw [hsplit, ← List.drop_drop, List.take_append_drop]
    · rw [if_neg hmore]
      simp only [if_true]
      congr 3
      rw [List.take_of_length_le]
      rw [List.length_drop]
      omega

/-- A successful call has an in-range start offset and did not overflow. -/
theorem getPaginated_ok_inv (sampleData : List Folder) (req : PaginatedFetchFolderRequest)
    (allFolders : List Folder) (start p : Int) (resp : PaginatedFetchFolderResponse)
    (hall : FetchAllFoldersByOrgID sampleData req.OrgID = .ok allFolders)
    (hstart : (if req.PageToken ≠ [] then decodePageToken req.PageToken else .ok 0) = .ok start)
    (hp : p = if req.PageSize ≤ 0 then DefaultPageSize else req.PageSize)
    (hsize : req.PageSize ≤ maxInt)
    (hcall : (GetPaginatedFolders sampleData req).2 = .ok resp) :
    0 ≤ start ∧ start ≤ (allFolders.length : Int) ∧ start + p ≤ maxInt := by
  have hsmax : start ≤ maxInt := by
    by_cases ht : req.PageToken ≠ []
    · rw [if_pos ht] at hstart
      exact (decodePageToken_range _ _ hstart).2
    · rw [if_neg ht] at hstart
      simp only [Except.ok.injEq] at hstart
      rw [← hstart]; unfold maxInt; omega
  have hp1 : 1 ≤ p ∧ p ≤ maxInt := by
    rw [hp]; unfold DefaultPageSize; unfold maxInt at *; split <;> omega
  rw [getPaginated_from_start sampleData req allFolders start hall hstart, ← hp] at hcall
  dsimp only at hcall
  by_cases hcond : 0 ≤ start ∧ start ≤ (if wrapInt (start + p) > (allFolders.length : Int)
      then (allFolders.length : Int) else wrapInt (start + p))
      ∧ (if wrapInt (start + p) > (allFolders.length : Int)
      then (allFolders.length : Int) else wrapInt (start + p)) ≤ (allFolders.length : Int)
  · obtain ⟨h0, hle, hle2⟩ := hcond
    by_cases hgt : wrapInt (start + p) > (allFolders.length : Int)
    · rw [if_pos hgt] at hle
      refine ⟨h0, hle, ?_⟩
      unfold wrapInt at hgt
      unfold maxInt at *
      omega
    · rw [if_neg hgt] at hle
      unfold wrapInt at hgt hle
      unfold maxInt at *
      omega
  · unfold sliceExpr at hcall
    rw [if_neg hcond] at hcall
    exact absurd hcall (by simp)

/-- The request after a call: only `PageSize` can change, to the effective page size. -/
theorem getPaginated_request (sampleData : List Folder) (req : PaginatedFetchFolderRequest) :
    (GetPaginatedFolders sampleData req).1
      = { req with PageSize := if req.PageSize ≤ 0 then DefaultPageSize else req.PageSize } := by
  unfold GetPaginatedFolders
  rw [fetch_eq_filter]
  dsimp only
  rw [defaulted_request]
  dsimp only
  split
  · rfl
  · split <;> rfl

/-! ## Claims: pagination -/

/-- C1 (traversal completeness). For every dataset, organization id and page size of type
`int` (zero and negative sizes mean 10), the traversal that starts with no token and
feeds each `NextToken` into the next request ends after at most `len + 1` calls, and the
concatenation of the returned pages, in call order, is exactly the folder list of
`GetAllFolders` for that organization. The length bound `2^62` on the list is met by
every slice a Go program can hold in memory. -/
theorem traversal_complete (sampleData : List Folder) (orgID : UUID) (pageSize : Int)
    (allFolders : List Folder)
    (hall : GetAllFolders sampleData { OrgID := orgID } = .ok { Folders := allFolders })
    (hsize : pageSize ≤ maxInt)
    (hbound : allFolders.length ≤ 4611686018427387904)
    (fuel : Nat) (hfuel : allFolders.length < fuel) :
    fetchAllPages sampleData fuel { OrgID := orgID, PageToken := [], PageSize := pageSize } [] []
      = some (.ok allFolders) := by
  have hfetch := fetch_of_getAll sampleData orgID allFolders hall
  have hp1 : 1 ≤ (if pageSize ≤ 0 then DefaultPageSize else pageSize) := by
    unfold DefaultPageSize; split <;> omega
  have hpmax : (if pageSize ≤ 0 then DefaultPageSize else pageSize) ≤ maxInt := by
    unfold DefaultPageSize; split
    · unfold maxInt; omega
    · exact hsize
  have h := fetchAllPages_from sampleData orgID allFolders
    (if pageSize ≤ 0 then DefaultPageSize else pageSize) hfetch hp1 hbound fuel
    { OrgID := orgID, PageToken := [], PageSize := pageSize } [] 0 [] rfl rfl
    (by simp) (le_refl _) (by omega) (by omega) (by omega)
  simpa using h

/-- Witness for C1: five folders, three of them of organization 1, page size 2. -/
theorem traversal_complete_witness :
    GetAllFolders [⟨1, 1⟩, ⟨2, 2⟩, ⟨3, 1⟩, ⟨4, 1⟩, ⟨5, 2⟩] { OrgID := 1 }
        = .ok { Folders := [⟨1, 1⟩, ⟨3, 1⟩, ⟨4, 1⟩] }
      ∧ (2 : Int) ≤ maxInt
      ∧ [(⟨1, 1⟩ : Folder), ⟨3, 1⟩, ⟨4, 1⟩].length ≤ 4611686018427387904
      ∧ [(⟨1, 1⟩ : Folder), ⟨3, 1⟩, ⟨4, 1⟩].length < 4
      ∧ fetchAllPages [⟨1, 1⟩, ⟨2, 2⟩, ⟨3, 1⟩, ⟨4, 1⟩, ⟨5, 2⟩] 4
          { OrgID := 1, PageToken := [], PageSize := 2 } [] []
        = some (.ok [⟨1, 1⟩, ⟨3, 1⟩, ⟨4, 1⟩]) :=
  ⟨by decide, by decide, by decide, by decide,
    traversal_complete [⟨1, 1⟩, ⟨2, 2⟩, ⟨3, 1⟩, ⟨4, 1⟩, ⟨5, 2⟩] 1 2 [⟨1, 1⟩, ⟨3, 1⟩, ⟨4, 1⟩]
      (by decide) (by decide) (by decide) 4 (by decide)⟩

/-- C2 (page window). Let `allFolders` be the full sequence of the organization, `p` the
effective page size (the requested size, or 10 when that is zero or negative) and `s`
the start offset (0 when the token is empty, otherwise the offset the token decodes
to). If `0 <= s <= len` and `s + p` is representable as an `int`, the call succeeds and
returns exactly `allFolders[s : min(s + p, len)]`; the page has `min(p, len - s)` folders,
never more than `p`, and exactly `p` when at least `p` folders remain from `s`. -/
theorem page_window (sampleData : List Folder) (req : PaginatedFetchFolderRequest)
    (allFolders : List Folder) (s p : Int)
    (hall : GetAllFolders sampleData { OrgID := req.OrgID } = .ok { Folders := allFolders })
    (hp : p = if req.PageSize ≤ 0 then DefaultPageSize else req.PageSize)
    (htoken : (req.PageToken = [] ∧ s = 0)
      ∨ (req.PageToken ≠ [] ∧ decodePageToken req.PageToken = .ok s))
    (h0 : 0 ≤ s) (hlen : s ≤ (allFolders.length : Int)) (hov : s + p ≤ maxInt) :
    ∃ resp, (GetPaginatedFolders sampleData req).2 = .ok resp
      ∧ resp.Folders = (allFolders.drop s.toNat).take
          ((min (s + p) (allFolders.length : Int)).toNat - s.toNat)
      ∧ (resp.Folders.length : Int) = min p ((allFolders.length : Int) - s)
      ∧ (resp.Folders.length : Int) ≤ p
      ∧ (p ≤ (allFolders.length : Int) - s → (resp.Folders.length : Int) = p) := by
  have hfetch := fetch_of_getAll sampleData req.OrgID allFolders hall
  have hstart : (if req.PageToken ≠ [] then decodePageToken req.PageToken else .ok 0) = .ok s := by
    rcases htoken with ⟨ht, hs⟩ | ⟨ht, hs⟩
    · rw [if_neg (by simpa using ht), hs]
    · rw [if_pos ht, hs]
  have hp1 : 1 ≤ p := by
    rw [hp]; unfold DefaultPageSize; split <;> omega
  have hcall := getPaginated_window sampleData req allFolders s p hfetch hstart hp h0 hlen hov
  refine ⟨_, by rw [hcall], ?_, ?_, ?_, ?_⟩
  · dsimp only
    by_cases hgt : s + p ≤ (allFolders.length : Int)
    · congr 1
      omega
    · rw [List.take_of_length_le, List.take_of_length_le]
      · rw [List.length_drop]; omega
      · rw [List.length_drop]; omega
  · dsimp only
    rw [List.length_take, List.length_drop]
    omega
  · dsimp only
    rw [List.length_take, List.length_drop]
    omega
  · intro hrem
    dsimp only
    rw [List.length_take, List.length_drop]
    omega

/-- Witness for C2: offset 2 (token "Mg=="), page size 3, an organization with six folders. -/
theorem page_window_witness :
    GetAllFolders sixFolders { OrgID := 7 } = .ok { Folders := sixFolders }
      ∧ (3 : Int) = (if (3 : Int) ≤ 0 then DefaultPageSize else 3)
      ∧ decodePageToken (bytes "Mg==") = .ok 2
      ∧ (2 : Int) ≤ (sixFolders.length : Int)
      ∧ (2 : Int) + 3 ≤ maxInt
      ∧ ∃ resp, (GetPaginatedFolders sixFolders
            { OrgID := 7, PageToken := bytes "Mg==", PageSize := 3 }).2 = .ok resp
          ∧ resp.Folders = (sixFolders.drop (2 : Int).toNat).take
              ((min ((2 : Int) + 3) (sixFolders.length : Int)).toNat - (2 : Int).toNat)
          ∧ (resp.Folders.length : Int) = min 3 ((sixFolders.length : Int) - 2)
          ∧ (resp.Folders.length : Int) ≤ 3
          ∧ ((3 : Int) ≤ (sixFolders.length : Int) - 2 → (resp.Folders.length : Int) = 3) :=
  ⟨by decide, by decide, by decide, by decide, by decide,
    page_window sixFolders { OrgID := 7, PageToken := bytes "Mg==", PageSize := 3 } sixFolders 2 3
      (by decide) (by decide) (Or.inr ⟨by decide, by decide⟩) (by decide) (by decide) (by decide)⟩

/-- C3 (next-token rule). For every successful call with start offset `start`, effective page
size `p` and window end `e = min(start + p, len)`: `NextToken` is empty exactly when `e = len`;
and when `e < len`, `NextToken` is non-empty, equals `encodePageToken(e)`, and decodes back
to `e`. -/
theorem next_token_rule (sampleData : List Folder) (req : PaginatedFetchFolderRequest)
    (allFolders : List Folder) (start p : Int) (resp : PaginatedFetchFolderResponse)
    (hall : GetAllFolders sampleData { OrgID := req.OrgID } = .ok { Folders := allFolders })
    (hp : p = if req.PageSize ≤ 0 then DefaultPageSize else req.PageSize)
    (hsize : req.PageSize ≤ maxInt)
    (htoken : (req.PageToken = [] ∧ start = 0)
      ∨ (req.PageToken ≠ [] ∧ decodePageToken req.PageToken = .ok start))
    (hcall : (GetPaginatedFolders sampleData req).2 = .ok resp) :
    (resp.NextToken = [] ↔ min (start + p) (allFolders.length : Int) = (allFolders.length : Int))
      ∧ (min (start + p) (allFolders.length : Int) < (allFolders.length : Int) →
          resp.NextToken ≠ []
          ∧ resp.NextToken = encodePageToken (min (start + p) (allFolders.length : Int))
          ∧ decodePageToken resp.NextToken = .ok (min (start + p) (allFolders.length : Int))) := by
  have hfetch := fetch_of_getAll sampleData req.OrgID allFolders hall
  have hstart : (if req.PageToken ≠ [] then decodePageToken req.PageToken else .ok 0)
      = .ok start := by
    rcases htoken with ⟨ht, hs⟩ | ⟨ht, hs⟩
    · rw [if_neg (by simpa using ht), hs]
    · rw [if_pos ht, hs]
  obtain ⟨h0, hlen, hov⟩ :=
    getPaginated_ok_inv sampleData req allFolders start p resp hfetch hstart hp hsize hcall
  have hp1 : 1 ≤ p := by
    rw [hp]; unfold DefaultPageSize; split <;> omega
  rw [getPaginated_window sampleData req allFolders start p hfetch hstart hp h0 hlen hov] at hcall
  simp only [Outcome.ok.injEq] at hcall
  subst hcall
  dsimp only
  by_cases hmore : start + p < (allFolders.length : Int)
  · have hmin : min (start + p) (allFolders.length : Int) = start + p := by omega
    rw [if_pos hmore, hmin]
    refine ⟨?_, fun _ => ⟨encodePageToken_ne_nil _, rfl, decode_encode _ (by omega) hov⟩⟩
    constructor
    · intro h; exact absurd h (encodePageToken_ne_nil _)
    · intro h; omega
  · have hmin : min (start + p) (allFolders.length : Int) = (allFolders.length : Int) := by omega
    rw [if_neg hmore, hmin]
    refine ⟨by simp, fun h => ?_⟩
    omega

/-- Witness for C3: offset 2 (token "Mg=="), page size 3, six folders: the window ends at 5
and the next token is "NQ==", the encoding of 5. -/
theorem next_token_rule_witness :
    GetAllFolders sixFolders { OrgID := 7 } = .ok { Folders := sixFolders }
      ∧ decodePageToken (bytes "Mg==") = .ok 2
      ∧ (GetPaginatedFolders sixFolders { OrgID := 7, PageToken := bytes "Mg==", PageSize := 3 }).2
          = .ok { Folders := [⟨3, 7⟩, ⟨4, 7⟩, ⟨5, 7⟩], NextToken := bytes "NQ==" }
      ∧ ((bytes "NQ==" = [] ↔ min ((2 : Int) + 3) (sixFolders.length : Int)
            = (sixFolders.length : Int))
        ∧ (min ((2 : Int) + 3) (sixFolders.length : Int) < (sixFolders.length : Int) →
          bytes "NQ==" ≠ []
          ∧ bytes "NQ==" = encodePageToken (min ((2 : Int) + 3) (sixFolders.length : Int))
          ∧ decodePageToken (bytes "NQ==")
              = .ok (min ((2 : Int) + 3) (sixFolders.length : Int)))) :=
  ⟨by decide, by decide, by decide,
    next_token_rule sixFolders { OrgID := 7, PageToken := bytes "Mg==", PageSize := 3 }
      sixFolders 2 3 { Folders := [⟨3, 7⟩, ⟨4, 7⟩, ⟨5, 7⟩], NextToken := bytes "NQ==" }
      (by decide) (by decide) (by decide) (Or.inr ⟨by decide, by decide⟩) (by decide)⟩

/-! ## Claims: the token codec -/

/-- C4 (codec round trip). For every non-negative offset `n` of type `int`,
`decodePageToken(encodePageToken(n))` succeeds and returns `n`; hence `encodePageToken` is
injective on non-negative offsets. -/
theorem codec_round_trip (n : Int) (h0 : 0 ≤ n) (hmax : n ≤ maxInt) :
    decodePageToken (encodePageToken n) = .ok n
      ∧ ∀ m : Int, 0 ≤ m → m ≤ maxInt → encodePageToken n = encodePageToken m → n = m := by
  refine ⟨decode_encode n h0 hmax, fun m hm0 hmmax heq => ?_⟩
  have h1 := decode_encode n h0 hmax
  have h2 := decode_encode m hm0 hmmax
  rw [heq, h2] at h1
  simpa using h1.symm

/-- Witness for C4: the offset 1234567. -/
theorem codec_round_trip_witness :
    (0 : Int) ≤ 1234567 ∧ (1234567 : Int) ≤ maxInt
      ∧ decodePageToken (encodePageToken 1234567) = .ok 1234567
      ∧ ∀ m : Int, 0 ≤ m → m ≤ maxInt → encodePageToken 1234567 = encodePageToken m → 1234567 = m :=
  ⟨by decide, by decide, codec_round_trip 1234567 (by decide) (by decide)⟩

/-- C5 (decode validity), evaluated where the code departs from it: the token "LTE=" is the
base64 text of "-1"; `decodePageToken` accepts it and returns the negative offset -1, and
`GetPaginatedFolders` then panics on the slice expression instead of returning an
invalid-token error. A token that is not base64 text, or whose text is no integer, is
rejected. -/
theorem decode_accepts_negative :
    decodePageToken (bytes "LTE=") = .ok (-1)
      ∧ DecodeString (bytes "LTE=") = (bytes "-1", none)
      ∧ (GetPaginatedFolders [⟨1, 7⟩, ⟨2, 7⟩, ⟨3, 7⟩]
          { OrgID := 7, PageToken := bytes "LTE=", PageSize := 2 }).2 = .panicked
      ∧ decodePageToken (bytes "invalid_token") = .error (.corruptInput 7)
      ∧ decodePageToken (bytes "eHl6") = .error (.numError (bytes "xyz") .invalidDigits) := by
  decide

/-- C6 (invalid token is fatal). For every organization, page size and non-empty token that
`decodePageToken` rejects with error `e`, the call returns no response but the error
`fmt.Errorf("invalid page token: %v", e)`, whose message is "invalid page token: " followed
by the message of `e`, so it contains "invalid page token"; no page is returned and no start offset is substituted. -/
theorem invalid_token_fatal (sampleData : List Folder) (req : PaginatedFetchFolderRequest)
    (e : GoError) (quote : GoString → String)
    (hne : req.PageToken ≠ []) (hdec : decodePageToken req.PageToken = .error e) :
    (GetPaginatedFolders sampleData req).2 = .err (.errorf "invalid page token: " e)
      ∧ (GoError.errorf "invalid page token: " e).Error quote
          = "invalid page token: " ++ e.Error quote
      ∧ (∃ rest : String,
          (GoError.errorf "invalid page token: " e).Error quote = "invalid page token" ++ rest)
      ∧ ∀ resp, (GetPaginatedFolders sampleData req).2 ≠ .ok resp := by
  have hcall : (GetPaginatedFolders sampleData req).2 = .err (.errorf "invalid page token: " e) := by
    unfold GetPaginatedFolders
    rw [fetch_eq_filter]
    dsimp only
    rw [defaulted_request]
    dsimp only
    rw [if_pos hne, hdec]
  refine ⟨hcall, rfl, ⟨": " ++ e.Error quote, ?_⟩, fun resp h => ?_⟩
  · rw [← String.append_assoc]; rfl
  · rw [hcall] at h
    exact absurd h (by simp)

/-- Witness for C6: the token "invalid_token" of the test `InvalidPageToken`. -/
theorem invalid_token_fatal_witness :
    bytes "invalid_token" ≠ []
      ∧ decodePageToken (bytes "invalid_token") = .error (.corruptInput 7)
      ∧ (GetPaginatedFolders [⟨1, 7⟩, ⟨2, 7⟩, ⟨3, 7⟩]
          { OrgID := 7, PageToken := bytes "invalid_token", PageSize := 0 }).2
          = .err (.errorf "invalid page token: " (.corruptInput 7))
      ∧ (GoError.errorf "invalid page token: " (.corruptInput 7)).Error (fun _ => "")
          = "invalid page token: " ++ (GoError.corruptInput 7).Error (fun _ => "")
      ∧ (∃ rest : String,
          (GoError.errorf "invalid page token: " (.corruptInput 7)).Error (fun _ => "")
            = "invalid page token" ++ rest)
      ∧ ∀ resp, (GetPaginatedFolders [⟨1, 7⟩, ⟨2, 7⟩, ⟨3, 7⟩]
          { OrgID := 7, PageToken := bytes "invalid_token", PageSize := 0 }).2 ≠ .ok resp :=
  ⟨by decide, by decide,
    invalid_token_fatal [⟨1, 7⟩, ⟨2, 7⟩, ⟨3, 7⟩]
      { OrgID := 7, PageToken := bytes "invalid_token", PageSize := 0 }
      (.corruptInput 7) (fun _ => "") (by decide) (by decide)⟩

/-- C7 (out-of-range start offset), what the code does instead: for every organization and
every token that decodes to an offset strictly past the end of the full sequence, the end
index is clamped to the length but the start index is not, and the slice expression panics;
no empty page is returned. An offset equal to the length does give the empty page. -/
theorem past_end_offset_panics (sampleData : List Folder) (req : PaginatedFetchFolderRequest)
    (allFolders : List Folder) (start : Int)
    (hall : GetAllFolders sampleData { OrgID := req.OrgID } = .ok { Folders := allFolders })
    (hne : req.PageToken ≠ []) (hdec : decodePageToken req.PageToken = .ok start)
    (hpast : (allFolders.length : Int) < start) :
    (GetPaginatedFolders sampleData req).2 = .panicked := by
  have hfetch := fetch_of_getAll sampleData req.OrgID allFolders hall
  have hstart : (if req.PageToken ≠ [] then decodePageToken req.PageToken else .ok 0)
      = .ok start := by
    rw [if_pos hne, hdec]
  rw [getPaginated_from_start sampleData req allFolders start hfetch hstart]
  dsimp only
  have hslice : sliceExpr allFolders start
      (if wrapInt (start + (if req.PageSize ≤ 0 then DefaultPageSize else req.PageSize))
            > (allFolders.length : Int) then (allFolders.length : Int)
          else wrapInt (start + (if req.PageSize ≤ 0 then DefaultPageSize else req.PageSize)))
      = none := by
    unfold sliceExpr
    rw [if_neg]
    rintro ⟨_, hle, hle2⟩
    split at hle <;> omega
  rw [hslice]

/-- Witness for C7: three folders and the token "NQ==", which decodes to 5. -/
theorem past_end_offset_panics_witness :
    GetAllFolders [⟨1, 7⟩, ⟨2, 7⟩, ⟨3, 7⟩] { OrgID := 7 }
        = .ok { Folders := [⟨1, 7⟩, ⟨2, 7⟩, ⟨3, 7⟩] }
      ∧ decodePageToken (bytes "NQ==") = .ok 5
      ∧ (([⟨1, 7⟩, ⟨2, 7⟩, ⟨3, 7⟩] : List Folder).length : Int) < 5
      ∧ (GetPaginatedFolders [⟨1, 7⟩, ⟨2, 7⟩, ⟨3, 7⟩]
          { OrgID := 7, PageToken := bytes "NQ==", PageSize := 0 }).2 = .panicked :=
  ⟨by decide, by decide, by decide,
    past_end_offset_panics [⟨1, 7⟩, ⟨2, 7⟩, ⟨3, 7⟩]
      { OrgID := 7, PageToken := bytes "NQ==", PageSize := 0 } [⟨1, 7⟩, ⟨2, 7⟩, ⟨3, 7⟩] 5
      (by decide) (by decide) (by decide) (by decide)⟩

/-- C8 as stated fails: an organization with exactly ten folders has at least ten folders,
and the first page with the default size returns all ten with an empty `NextToken`. -/
theorem exactly_ten_empty_token :
    GetAllFolders tenFolders { OrgID := 1 } = .ok { Folders := tenFolders }
      ∧ 10 ≤ tenFolders.length
      ∧ ¬ ∃ resp, (GetPaginatedFolders tenFolders { OrgID := 1, PageToken := [], PageSize := 0 }).2
            = .ok resp ∧ resp.Folders.length = 10 ∧ resp.NextToken ≠ [] := by
  refine ⟨by decide, by decide, ?_⟩
  rintro ⟨resp, hcall, _, hne⟩
  have heval : (GetPaginatedFolders tenFolders { OrgID := 1, PageToken := [], PageSize := 0 }).2
      = .ok { Folders := tenFolders, NextToken := [] } := by decide
  rw [heval] at hcall
  simp only [Outcome.ok.injEq] at hcall
  rw [← hcall] at hne
  exact hne rfl

/-- C8 amended (default page size, first page). For every organization with at least 10
folders, a call with no token and no page size returns exactly the first 10 folders of the
full sequence; `NextToken` is non-empty exactly when the organization has more than 10
folders, and it is then the encoding of offset 10. -/
theorem default_first_page (sampleData : List Folder) (orgID : UUID) (allFolders : List Folder)
    (hall : GetAllFolders sampleData { OrgID := orgID } = .ok { Folders := allFolders })
    (h10 : 10 ≤ allFolders.length) :
    ∃ resp, (GetPaginatedFolders sampleData { OrgID := orgID, PageToken := [], PageSize := 0 }).2
        = .ok resp
      ∧ resp.Folders = allFolders.take 10
      ∧ resp.Folders.length = 10
      ∧ (resp.NextToken ≠ [] ↔ 10 < allFolders.length)
      ∧ (10 < allFolders.length → resp.NextToken = encodePageToken 10) := by
  have hfetch := fetch_of_getAll sampleData orgID allFolders hall
  have hcall := getPaginated_window sampleData { OrgID := orgID, PageToken := [], PageSize := 0 }
    allFolders 0 10 hfetch (by simp) (by simp [DefaultPageSize]) (le_refl _) (by omega)
    (by unfold maxInt; omega)
  refine ⟨_, by rw [hcall], ?_, ?_, ?_, ?_⟩
  · simp
  · simp only [Int.toNat_zero, List.drop_zero, List.length_take]
    have : (10 : Int).toNat = 10 := rfl
    omega
  · dsimp only
    by_cases hmore : (0 : Int) + 10 < (allFolders.length : Int)
    · rw [if_pos hmore]
      constructor
      · intro _; omega
      · intro _; exact encodePageToken_ne_nil _
    · rw [if_neg hmore]
      constructor
      · intro h; exact absurd rfl h
      · intro h; omega
  · intro hmore
    dsimp only
    rw [if_pos (by omega)]
    rfl

/-- Witness for C8 amended: an organization with eleven folders. -/
theorem default_first_page_witness :
    GetAllFolders (⟨11, 1⟩ :: tenFolders) { OrgID := 1 } = .ok { Folders := ⟨11, 1⟩ :: tenFolders }
      ∧ 10 ≤ ((⟨11, 1⟩ : Folder) :: tenFolders).length
      ∧ ∃ resp, (GetPaginatedFolders (⟨11, 1⟩ :: tenFolders)
            { OrgID := 1, PageToken := [], PageSize := 0 }).2 = .ok resp
          ∧ resp.Folders = ((⟨11, 1⟩ : Folder) :: tenFolders).take 10
          ∧ resp.Folders.length = 10
          ∧ (resp.NextToken ≠ [] ↔ 10 < ((⟨11, 1⟩ : Folder) :: tenFolders).length)
          ∧ (10 < ((⟨11, 1⟩ : Folder) :: tenFolders).length → resp.NextToken = encodePageToken 10) :=
  ⟨by decide, by decide,
    default_first_page (⟨11, 1⟩ :: tenFolders) 1 (⟨11, 1⟩ :: tenFolders) (by decide) (by decide)⟩

/-- C9 (page-size defaulting). For every organization and token, a request with page size
`p <= 0` gives exactly what the same request with page size `DefaultPageSize = 10` gives
(same page and token, same error, same panic, same request afterwards); and a page size
`q >= 1` is used as given: it is the page size of the request after the call, and from an
in-range start offset `s` the page holds the `q` folders from `s` on, or all that remain,
with no upper clamp on `q`. -/
theorem page_size_defaulting (sampleData : List Folder) (orgID : UUID) (token : GoString)
    (p q : Int) (hp : p ≤ 0) (hq : 1 ≤ q) :
    GetPaginatedFolders sampleData { OrgID := orgID, PageToken := token, PageSize := p }
        = GetPaginatedFolders sampleData
            { OrgID := orgID, PageToken := token, PageSize := DefaultPageSize }
      ∧ DefaultPageSize = 10
      ∧ (GetPaginatedFolders sampleData
            { OrgID := orgID, PageToken := token, PageSize := q }).1.PageSize = q
      ∧ ∀ (allFolders : List Folder) (s : Int),
          GetAllFolders sampleData { OrgID := orgID } = .ok { Folders := allFolders } →
          ((token = [] ∧ s = 0) ∨ (token ≠ [] ∧ decodePageToken token = .ok s)) →
          0 ≤ s → s ≤ (allFolders.length : Int) → s + q ≤ maxInt →
          ∃ resp, (GetPaginatedFolders sampleData
              { OrgID := orgID, PageToken := token, PageSize := q }).2 = .ok resp
            ∧ resp.Folders = (allFolders.drop s.toNat).take q.toNat := by
  refine ⟨?_, rfl, ?_, ?_⟩
  · have hD : ¬ (DefaultPageSize ≤ 0) := by unfold DefaultPageSize; omega
    simp only [GetPaginatedFolders, fetch_eq_filter, hp, hD, if_true, if_false]
  · rw [getPaginated_request]
    dsimp only
    rw [if_neg (by omega)]
  · intro allFolders s hall htoken h0 hlen hov
    have hfetch := fetch_of_getAll sampleData orgID allFolders hall
    have hstart : (if token ≠ [] then decodePageToken token else .ok 0) = .ok s := by
      rcases htoken with ⟨ht, hs⟩ | ⟨ht, hs⟩
      · rw [if_neg (by simpa using ht), hs]
      · rw [if_pos ht, hs]
    have hcall := getPaginated_window sampleData
      { OrgID := orgID, PageToken := token, PageSize := q } allFolders s q hfetch hstart
      (by dsimp only; rw [if_neg (by omega)]) h0 hlen hov
    exact ⟨_, by rw [hcall], rfl⟩

/-- Witness for C9: page sizes -3 and 4 on a first page. -/
theorem page_size_defaulting_witness :
    ((-3 : Int) ≤ 0) ∧ ((1 : Int) ≤ 4)
      ∧ (GetPaginatedFolders tenFolders { OrgID := 1, PageToken := [], PageSize := -3 }
          = GetPaginatedFolders tenFolders
              { OrgID := 1, PageToken := [], PageSize := DefaultPageSize }
        ∧ DefaultPageSize = 10
        ∧ (GetPaginatedFolders tenFolders
              { OrgID := 1, PageToken := [], PageSize := 4 }).1.PageSize = 4
        ∧ ∀ (allFolders : List Folder) (s : Int),
            GetAllFolders tenFolders { OrgID := 1 } = .ok { Folders := allFolders } →
            (([] = ([] : GoString) ∧ s = 0) ∨ (([] : GoString) ≠ [] ∧ decodePageToken [] = .ok s)) →
            0 ≤ s → s ≤ (allFolders.length : Int) → s + 4 ≤ maxInt →
            ∃ resp, (GetPaginatedFolders tenFolders
                { OrgID := 1, PageToken := [], PageSize := 4 }).2 = .ok resp
              ∧ resp.Folders = (allFolders.drop s.toNat).take (4 : Int).toNat) :=
  ⟨by decide, by decide, page_size_defaulting tenFolders 1 [] (-3) 4 (by decide) (by decide)⟩

/-! ## Claims: the full fetch -/

/-- C10 (full-fetch filter correctness). For every dataset and organization id,
`GetAllFolders` succeeds and its `Folders` is the dataset filtered by `OrgId == orgID`, in
dataset order: a folder is in the result exactly when it is in the dataset with that
`OrgId`, with the same multiplicity, and the result is a subsequence of the dataset. -/
theorem full_fetch_filter (sampleData : List Folder) (orgID : UUID) :
    ∃ resp, GetAllFolders sampleData { OrgID := orgID } = .ok resp
      ∧ resp.Folders = sampleData.filter (fun f => decide (f.OrgId = orgID))
      ∧ (∀ f, f ∈ resp.Folders ↔ f ∈ sampleData ∧ f.OrgId = orgID)
      ∧ (∀ f, f.OrgId = orgID → resp.Folders.count f = sampleData.count f)
      ∧ (∀ f, f.OrgId ≠ orgID → resp.Folders.count f = 0)
      ∧ resp.Folders.Sublist sampleData := by
  refine ⟨_, getAll_eq sampleData { OrgID := orgID }, rfl, ?_, ?_, ?_, ?_⟩
  · intro f
    simp [List.mem_filter]
  · intro f hf
    dsimp only
    rw [List.count_filter]
    simpa using hf
  · intro f hf
    dsimp only
    rw [List.count_eq_zero]
    intro hmem
    rw [List.mem_filter] at hmem
    exact hf (by simpa using hmem.2)
  · exact List.filter_sublist _

/-- A call with a non-empty token that does not decode returns the wrapped error. -/
theorem getPaginated_decode_error (sampleData : List Folder) (req : PaginatedFetchFolderRequest)
    (e : GoError) (hne : req.PageToken ≠ []) (hdec : decodePageToken req.PageToken = .error e) :
    (GetPaginatedFolders sampleData req).2 = .err (.errorf "invalid page token: " e) := by
  unfold GetPaginatedFolders
  rw [fetch_eq_filter]
  dsimp only
  rw [defaulted_request]
  dsimp only
  rw [if_pos hne, hdec]

/-! ## Claims: edge cases of a single call -/

/-- C11 (empty organization). For every dataset and every organization id that no folder of
the dataset carries, `GetAllFolders` succeeds with an empty `Folders`, and
`GetPaginatedFolders` with no token and any page size of type `int` succeeds with an empty
`Folders` and an empty `NextToken`; neither returns an error. -/
theorem empty_organization (sampleData : List Folder) (orgID : UUID) (pageSize : Int)
    (hnone : ∀ f ∈ sampleData, f.OrgId ≠ orgID) (hsize : pageSize ≤ maxInt) :
    GetAllFolders sampleData { OrgID := orgID } = .ok { Folders := [] }
      ∧ (GetPaginatedFolders sampleData
          { OrgID := orgID, PageToken := [], PageSize := pageSize }).2
          = .ok { Folders := [], NextToken := [] } := by
  have hfilter : sampleData.filter (fun f => decide (f.OrgId = orgID)) = [] := by
    rw [List.filter_eq_nil_iff]
    intro f hf
    simpa using hnone f hf
  have hall : GetAllFolders sampleData { OrgID := orgID } = .ok { Folders := [] } := by
    rw [getAll_eq, hfilter]
  refine ⟨hall, ?_⟩
  have hfetch := fetch_of_getAll sampleData orgID [] hall
  have hpmax : (if pageSize ≤ 0 then DefaultPageSize else pageSize) ≤ maxInt := by
    unfold DefaultPageSize; split
    · unfold maxInt; omega
    · exact hsize
  have hp1 : 1 ≤ (if pageSize ≤ 0 then DefaultPageSize else pageSize) := by
    unfold DefaultPageSize; split <;> omega
  have hcall := getPaginated_window sampleData
    { OrgID := orgID, PageToken := [], PageSize := pageSize } [] 0
    (if pageSize ≤ 0 then DefaultPageSize else pageSize) hfetch (by simp) rfl (le_refl _)
    (by simp) (by omega)
  rw [hcall]
  have hend : ¬ ((0 : Int) + (if pageSize ≤ 0 then DefaultPageSize else pageSize)
      < ((([] : List Folder).length : Nat) : Int)) := by
    simp only [List.length_nil, Nat.cast_zero]
    omega
  dsimp only
  rw [if_neg hend]
  simp only [List.drop_nil, List.take_nil]

/-- Witness for C11: organization 9 has no folder among the six of organization 7. -/
theorem empty_organization_witness :
    (∀ f ∈ sixFolders, f.OrgId ≠ 9) ∧ (25 : Int) ≤ maxInt
      ∧ GetAllFolders sixFolders { OrgID := 9 } = .ok { Folders := [] }
      ∧ (GetPaginatedFolders sixFolders { OrgID := 9, PageToken := [], PageSize := 25 }).2
          = .ok { Folders := [], NextToken := [] } :=
  ⟨by decide, by decide, empty_organization sixFolders 9 25 (by decide) (by decide)⟩

/-- C12 (no page-size upper bound), what the code does instead: from a start offset
`s >= 1` given by a token, a page size of type `int` so large that `s + PageSize` exceeds
the largest `int` makes the sum wrap around to a negative end index, and the slice
expression panics; the remaining collection is not returned. -/
theorem large_page_size_panics (sampleData : List Folder) (req : PaginatedFetchFolderRequest)
    (allFolders : List Folder) (s : Int)
    (hall : GetAllFolders sampleData { OrgID := req.OrgID } = .ok { Folders := allFolders })
    (hne : req.PageToken ≠ []) (hdec : decodePageToken req.PageToken = .ok s)
    (hs1 : 1 ≤ s) (hlen : s ≤ (allFolders.length : Int))
    (hremain : (allFolders.length : Int) - s ≤ req.PageSize)
    (hsize : req.PageSize ≤ maxInt) (hover : maxInt < s + req.PageSize) :
    (GetPaginatedFolders sampleData req).2 = .panicked := by
  have hfetch := fetch_of_getAll sampleData req.OrgID allFolders hall
  have hstart : (if req.PageToken ≠ [] then decodePageToken req.PageToken else .ok 0)
      = .ok s := by
    rw [if_pos hne, hdec]
  have hsmax := (decodePageToken_range _ _ hdec).2
  have hpos : ¬ req.PageSize ≤ 0 := by unfold maxInt at *; omega
  rw [getPaginated_from_start sampleData req allFolders s hfetch hstart]
  dsimp only
  rw [if_neg hpos]
  have hwrap : wrapInt (s + req.PageSize) < 0 := by
    unfold wrapInt; unfold maxInt at *; omega
  have hslice : sliceExpr allFolders s
      (if wrapInt (s + req.PageSize) > (allFolders.length : Int) then (allFolders.length : Int)
        else wrapInt (s + req.PageSize)) = none := by
    unfold sliceExpr
    rw [if_neg (by omega : ¬ wrapInt (s + req.PageSize) > (allFolders.length : Int))]
    rw [if_neg]
    rintro ⟨_, hle, _⟩
    omega
  rw [hslice]

/-- Witness for C12: six folders, the token "MQ==" (offset 1) and the largest page size. -/
theorem large_page_size_panics_witness :
    GetAllFolders sixFolders { OrgID := 7 } = .ok { Folders := sixFolders }
      ∧ decodePageToken (bytes "MQ==") = .ok 1
      ∧ (sixFolders.length : Int) - 1 ≤ 9223372036854775807
      ∧ (9223372036854775807 : Int) ≤ maxInt
      ∧ maxInt < 1 + 9223372036854775807
      ∧ (GetPaginatedFolders sixFolders
          { OrgID := 7, PageToken := bytes "MQ==", PageSize := 9223372036854775807 }).2
          = .panicked :=
  ⟨by decide, by decide, by decide, by decide, by decide,
    large_page_size_panics sixFolders
      { OrgID := 7, PageToken := bytes "MQ==", PageSize := 9223372036854775807 } sixFolders 1
      (by decide) (by decide) (by decide) (by decide) (by decide) (by decide) (by decide)
      (by decide)⟩

/-- C16 (first-page calls are total). For every dataset, organization id and page size of
type `int` (negative, zero or positive up to the largest `int`), a call with an empty
`PageToken` returns a response and no error: the end index `e` computed by the code
satisfies `0 <= e <= len`, the slice expression `allFolders[0:e]` is in bounds, and the
response holds that slice. -/
theorem first_page_total (sampleData : List Folder) (orgID : UUID) (pageSize : Int)
    (allFolders : List Folder)
    (hall : GetAllFolders sampleData { OrgID := orgID } = .ok { Folders := allFolders })
    (hsize : pageSize ≤ maxInt) :
    ∃ (resp : PaginatedFetchFolderResponse) (e : Int),
      e = (if wrapInt (0 + (if pageSize ≤ 0 then DefaultPageSize else pageSize))
              > (allFolders.length : Int) then (allFolders.length : Int)
            else wrapInt (0 + (if pageSize ≤ 0 then DefaultPageSize else pageSize)))
      ∧ 0 ≤ e ∧ e ≤ (allFolders.length : Int)
      ∧ sliceExpr allFolders 0 e = some resp.Folders
      ∧ (GetPaginatedFolders sampleData
          { OrgID := orgID, PageToken := [], PageSize := pageSize }).2 = .ok resp := by
  have hfetch := fetch_of_getAll sampleData orgID allFolders hall
  have hpmax : (if pageSize ≤ 0 then DefaultPageSize else pageSize) ≤ maxInt := by
    unfold DefaultPageSize; split
    · unfold maxInt; omega
    · exact hsize
  have hp1 : 1 ≤ (if pageSize ≤ 0 then DefaultPageSize else pageSize) := by
    unfold DefaultPageSize; split <;> omega
  have hw : wrapInt (0 + (if pageSize ≤ 0 then DefaultPageSize else pageSize))
      = (if pageSize ≤ 0 then DefaultPageSize else pageSize) := by
    rw [zero_add]
    exact wrapInt_of_range _ (by unfold minInt; omega) hpmax
  have hfrom := getPaginated_from_start sampleData
    { OrgID := orgID, PageToken := [], PageSize := pageSize } allFolders 0 hfetch (by simp)
  dsimp only at hfrom
  have hbounds : 0 ≤ (if wrapInt (0 + (if pageSize ≤ 0 then DefaultPageSize else pageSize))
              > (allFolders.length : Int) then (allFolders.length : Int)
            else wrapInt (0 + (if pageSize ≤ 0 then DefaultPageSize else pageSize)))
      ∧ (if wrapInt (0 + (if pageSize ≤ 0 then DefaultPageSize else pageSize))
              > (allFolders.length : Int) then (allFolders.length : Int)
            else wrapInt (0 + (if pageSize ≤ 0 then DefaultPageSize else pageSize)))
        ≤ (allFolders.length : Int) := by
    rw [hw]
    split <;> omega
  have hslice : sliceExpr allFolders 0
      (if wrapInt (0 + (if pageSize ≤ 0 then DefaultPageSize else pageSize))
              > (allFolders.length : Int) then (allFolders.length : Int)
            else wrapInt (0 + (if pageSize ≤ 0 then DefaultPageSize else pageSize)))
      = some ((allFolders.drop (0 : Int).toNat).take
          ((if wrapInt (0 + (if pageSize ≤ 0 then DefaultPageSize else pageSize))
              > (allFolders.length : Int) then (allFolders.length : Int)
            else wrapInt (0 + (if pageSize ≤ 0 then DefaultPageSize else pageSize))).toNat
            - (0 : Int).toNat)) := by
    unfold sliceExpr
    rw [if_pos ⟨le_refl _, hbounds.1, hbounds.2⟩]
  rw [hslice] at hfrom
  exact ⟨_, _, rfl, hbounds.1, hbounds.2, hslice, by rw [hfrom]⟩

/-- Witness for C16: the largest page size on a first page. -/
theorem first_page_total_witness :
    GetAllFolders sixFolders { OrgID := 7 } = .ok { Folders := sixFolders }
      ∧ (9223372036854775807 : Int) ≤ maxInt
      ∧ ∃ (resp : PaginatedFetchFolderResponse) (e : Int),
          e = (if wrapInt (0 + (if (9223372036854775807 : Int) ≤ 0 then DefaultPageSize
                  else 9223372036854775807)) > (sixFolders.length : Int)
                then (sixFolders.length : Int)
                else wrapInt (0 + (if (9223372036854775807 : Int) ≤ 0 then DefaultPageSize
                  else 9223372036854775807)))
          ∧ 0 ≤ e ∧ e ≤ (sixFolders.length : Int)
          ∧ sliceExpr sixFolders 0 e = some resp.Folders
          ∧ (GetPaginatedFolders sixFolders
              { OrgID := 7, PageToken := [], PageSize := 9223372036854775807 }).2 = .ok resp :=
  ⟨by decide, by decide,
    first_page_total sixFolders 7 9223372036854775807 sixFolders (by decide) (by decide)⟩

/-- C17 (effect on the request). After every call, whatever its outcome (a response, an
invalid-token error or a panic), the request has `PageSize = DefaultPageSize = 10` if it
was zero or negative before and the same `PageSize` otherwise; `OrgID` and `PageToken` are
unchanged; so the request is left unmodified exactly when its `PageSize` was at least 1. -/
theorem request_effect (sampleData : List Folder) (req : PaginatedFetchFolderRequest) :
    (GetPaginatedFolders sampleData req).1.PageSize
        = (if req.PageSize ≤ 0 then DefaultPageSize else req.PageSize)
      ∧ DefaultPageSize = 10
      ∧ (GetPaginatedFolders sampleData req).1.OrgID = req.OrgID
      ∧ (GetPaginatedFolders sampleData req).1.PageToken = req.PageToken
      ∧ ((GetPaginatedFolders sampleData req).1 = req ↔ 1 ≤ req.PageSize) := by
  rw [getPaginated_request]
  refine ⟨rfl, rfl, rfl, rfl, ?_⟩
  constructor
  · intro h
    have h2 := congrArg PaginatedFetchFolderRequest.PageSize h
    dsimp only at h2
    unfold DefaultPageSize at h2
    split at h2 <;> omega
  · intro h
    rw [if_neg (by omega)]

/-- C19 (tokens are not canonical). The tokens "MDU=" and "KzU=", the base64 texts of "05"
and "+5", decode to offset 5, whose encoding is "NQ=="; so decoding and then encoding does
not give these tokens back. Any two non-empty tokens that decode alike give the same
outcome of `GetPaginatedFolders`, here the same page. -/
theorem tokens_not_canonical :
    DecodeString (bytes "MDU=") = (bytes "05", none)
      ∧ DecodeString (bytes "KzU=") = (bytes "+5", none)
      ∧ decodePageToken (bytes "MDU=") = .ok 5
      ∧ decodePageToken (bytes "KzU=") = .ok 5
      ∧ encodePageToken 5 = bytes "NQ=="
      ∧ encodePageToken 5 ≠ bytes "MDU="
      ∧ encodePageToken 5 ≠ bytes "KzU="
      ∧ (∃ (t : GoString) (n : Int), decodePageToken t = .ok n ∧ encodePageToken n ≠ t)
      ∧ (GetPaginatedFolders tenFolders { OrgID := 1, PageToken := bytes "MDU=", PageSize := 2 }).2
          = (GetPaginatedFolders tenFolders
              { OrgID := 1, PageToken := bytes "NQ==", PageSize := 2 }).2
      ∧ (GetPaginatedFolders tenFolders { OrgID := 1, PageToken := bytes "MDU=", PageSize := 2 }).2
          = .ok { Folders := [⟨5, 1⟩, ⟨6, 1⟩], NextToken := bytes "Nw==" }
      ∧ ∀ (sampleData : List Folder) (orgID : UUID) (pageSize : Int) (t1 t2 : GoString),
          t1 ≠ [] → t2 ≠ [] → decodePageToken t1 = decodePageToken t2 →
          (GetPaginatedFolders sampleData
              { OrgID := orgID, PageToken := t1, PageSize := pageSize }).2
            = (GetPaginatedFolders sampleData
                { OrgID := orgID, PageToken := t2, PageSize := pageSize }).2 := by
  refine ⟨by decide, by decide, by decide, by decide, by decide, by decide, by decide,
    ⟨bytes "MDU=", 5, by decide, by decide⟩, by decide, by decide, ?_⟩
  intro sampleData orgID pageSize t1 t2 h1 h2 heq
  cases hd : decodePageToken t2 with
  | error e =>
    rw [hd] at heq
    rw [getPaginated_decode_error sampleData { OrgID := orgID, PageToken := t1, PageSize := pageSize }
        e h1 heq,
      getPaginated_decode_error sampleData { OrgID := orgID, PageToken := t2, PageSize := pageSize }
        e h2 hd]
  | ok startIndex =>
    rw [hd] at heq
    rw [getPaginated_from_start sampleData { OrgID := orgID, PageToken := t1, PageSize := pageSize }
        _ startIndex (fetch_eq_filter _ _) (by dsimp only; rw [if_pos h1, heq]),
      getPaginated_from_start sampleData { OrgID := orgID, PageToken := t2, PageSize := pageSize }
        _ startIndex (fetch_eq_filter _ _) (by dsimp only; rw [if_pos h2, hd])]

/-! ## Helper lemmas: the characters of a token -/

theorem encodeByte_alnum : ∀ i, i < 62 → isAlnum (encodeByte i) := by
  decide

/-- The shape of the encoding of a string of decimal digits: letters and digits, then the
padding the length calls for. -/
theorem encode_digits_shape (bs : GoString) (hbs : ∀ b ∈ bs, 48 ≤ b ∧ b ≤ 57) :
    ∃ body : GoString,
      EncodeToString bs = body ++ List.replicate ((3 - bs.length % 3) % 3) 61
        ∧ (∀ c ∈ body, isAlnum c)
        ∧ (EncodeToString bs).length = 4 * ((bs.length + 2) / 3) := by
  induction bs using EncodeToString.induct with
  | case1 => exact ⟨[], by simp [EncodeToString], by simp, by simp [EncodeToString]⟩
  | case2 a =>
    have ha := hbs a (by simp)
    refine ⟨[encodeByte (a * 65536 / 262144 % 64), encodeByte (a * 65536 / 4096 % 64)],
      by simp [EncodeToString, List.replicate], ?_, by simp [EncodeToString]⟩
    intro c hc
    simp only [List.mem_cons, List.mem_singleton, List.not_mem_nil, or_false] at hc
    rcases hc with rfl | rfl <;> exact encodeByte_alnum _ (by omega)
  | case3 a b =>
    have ha := hbs a (by simp)
    have hb := hbs b (by simp)
    refine ⟨[encodeByte ((a * 65536 + b * 256) / 262144 % 64),
        encodeByte ((a * 65536 + b * 256) / 4096 % 64),
        encodeByte ((a * 65536 + b * 256) / 64 % 64)],
      by simp [EncodeToString, List.replicate], ?_, by simp [EncodeToString]⟩
    intro c hc
    simp only [List.mem_cons, List.mem_singleton, List.not_mem_nil, or_false] at hc
    rcases hc with rfl | rfl | rfl <;> exact encodeByte_alnum _ (by omega)
  | case4 a b c rest ih =>
    have ha := hbs a (by simp)
    have hb := hbs b (by simp)
    have hc := hbs c (by simp)
    obtain ⟨body, hbody, halnum, hlen⟩ := ih (fun x hx => hbs x (by simp [hx]))
    refine ⟨[encodeByte ((a * 65536 + b * 256 + c) / 262144 % 64),
        encodeByte ((a * 65536 + b * 256 + c) / 4096 % 64),
        encodeByte ((a * 65536 + b * 256 + c) / 64 % 64),
        encodeByte ((a * 65536 + b * 256 + c) % 64)] ++ body, ?_, ?_, ?_⟩
    · have hmod : (a :: b :: c :: rest).length % 3 = rest.length % 3 := by
        simp only [List.length_cons]; omega
      rw [hmod, EncodeToString, hbody, List.append_assoc]
    · intro x hx
      rcases List.mem_append.mp hx with h | h
      · simp only [List.mem_cons, List.mem_singleton, List.not_mem_nil, or_false] at h
        rcases h with rfl | rfl | rfl | rfl <;> exact encodeByte_alnum _ (by omega)
      · exact halnum x h
    · rw [EncodeToString, List.length_append, hlen]
      simp only [List.length_cons, List.length_nil]
      omega

theorem Itoa_digits (n : Int) (h0 : 0 ≤ n) : ∀ b ∈ Itoa n, 48 ≤ b ∧ b ≤ 57 := by
  intro b hb
  unfold Itoa at hb
  rw [if_neg (by omega)] at hb
  rcases formatBits_mem _ _ _ b hb with h | h
  · simp at h
  · exact h

theorem isAlnum_not_special (c : Nat) (h : isAlnum c) : isUnreserved c ∧ c ≠ 43 ∧ c ≠ 47 ∧ c ≠ 61 := by
  unfold isUnreserved
  unfold isAlnum at *
  omega

/-! ## Claims: the characters of a token -/

/-- C13 as stated fails: the token of offset 5 is "NQ==", and its padding character `=`
is not an unreserved character of RFC 3986. -/
theorem token_has_padding :
    encodePageToken 5 = bytes "NQ=="
      ∧ ¬ (∀ c ∈ encodePageToken 5, isUnreserved c ∧ c ≠ 43 ∧ c ≠ 47 ∧ c ≠ 61) := by
  decide

/-- C13 amended. For every non-negative offset `n`, every character of `encodePageToken(n)`
is an unreserved character of RFC 3986 or the padding character `=`; the token contains
neither `+` nor `/`. -/
theorem token_characters (n : Int) (h0 : 0 ≤ n) :
    ∀ c ∈ encodePageToken n, (isUnreserved c ∨ c = 61) ∧ c ≠ 43 ∧ c ≠ 47 := by
  intro c hc
  unfold encodePageToken at hc
  obtain ⟨body, hbody, halnum, _⟩ := encode_digits_shape (Itoa n) (Itoa_digits n h0)
  rw [hbody] at hc
  rcases List.mem_append.mp hc with h | h
  · have := isAlnum_not_special c (halnum c h)
    exact ⟨Or.inl this.1, this.2.1, this.2.2.1⟩
  · have h61 : c = 61 := (List.mem_replicate.mp h).2
    exact ⟨Or.inr h61, by omega, by omega⟩

/-- Witness for C13 amended: the offset 1234. -/
theorem token_characters_witness :
    (0 : Int) ≤ 1234
      ∧ ∀ c ∈ encodePageToken 1234, (isUnreserved c ∨ c = 61) ∧ c ≠ 43 ∧ c ≠ 47 :=
  ⟨by decide, token_characters 1234 (by decide)⟩

/-- C18 (standard-base64 tokens of offsets). For every non-negative offset `n`,
`encodePageToken(n)` is non-empty, its length is a multiple of 4, and it consists of ASCII
letters and digits followed by `=` padding: two when the decimal form of `n` has length 1
mod 3, one when 2 mod 3, none when 0 mod 3; `+` and `/` never occur. -/
theorem token_shape (n : Int) (h0 : 0 ≤ n) :
    encodePageToken n ≠ []
      ∧ (encodePageToken n).length % 4 = 0
      ∧ (∃ (body : GoString) (pad : Nat),
          encodePageToken n = body ++ List.replicate pad 61
            ∧ (∀ c ∈ body, isAlnum c)
            ∧ ((Itoa n).length % 3 = 1 → pad = 2)
            ∧ ((Itoa n).length % 3 = 2 → pad = 1)
            ∧ ((Itoa n).length % 3 = 0 → pad = 0))
      ∧ 43 ∉ encodePageToken n
      ∧ 47 ∉ encodePageToken n := by
  obtain ⟨body, hbody, halnum, hlen⟩ := encode_digits_shape (Itoa n) (Itoa_digits n h0)
  have hno : ∀ c ∈ encodePageToken n, c ≠ 43 ∧ c ≠ 47 := by
    intro c hc
    unfold encodePageToken at hc
    rw [hbody] at hc
    rcases List.mem_append.mp hc with h | h
    · have := isAlnum_not_special c (halnum c h)
      exact ⟨this.2.1, this.2.2.1⟩
    · have h61 : c = 61 := (List.mem_replicate.mp h).2
      omega
  refine ⟨encodePageToken_ne_nil n, ?_, ⟨body, _, hbody, halnum, ?_, ?_, ?_⟩, ?_, ?_⟩
  · unfold encodePageToken
    rw [hlen]
    omega
  · intro h; omega
  · intro h; omega
  · intro h; omega
  · intro h; exact (hno 43 h).1 rfl
  · intro h; exact (hno 47 h).2 rfl

/-- Witness for C18: the offset 1234567, whose decimal form has length 1 mod 3. -/
theorem token_shape_witness :
    (0 : Int) ≤ 1234567
      ∧ encodePageToken 1234567 = bytes "MTIzNDU2Nw=="
      ∧ (encodePageToken 1234567 ≠ []
        ∧ (encodePageToken 1234567).length % 4 = 0
        ∧ (∃ (body : GoString) (pad : Nat),
            encodePageToken 1234567 = body ++ List.replicate pad 61
              ∧ (∀ c ∈ body, isAlnum c)
              ∧ ((Itoa 1234567).length % 3 = 1 → pad = 2)
              ∧ ((Itoa 1234567).length % 3 = 2 → pad = 1)
              ∧ ((Itoa 1234567).length % 3 = 0 → pad = 0))
        ∧ 43 ∉ encodePageToken 1234567
        ∧ 47 ∉ encodePageToken 1234567) :=
  ⟨by decide, by decide, token_shape 1234567 (by decide)⟩

/-! ## Helper lemmas: tokens across calls -/

/-- A successful call that returns a token: the token is the encoding of the end offset
`start + p`, which lies strictly between the start offset and the length. -/
theorem nextToken_of_ok (sampleData : List Folder) (req : PaginatedFetchFolderRequest)
    (allFolders : List Folder) (start p : Int) (resp : PaginatedFetchFolderResponse)
    (hall : FetchAllFoldersByOrgID sampleData req.OrgID = .ok allFolders)
    (hstart : (if req.PageToken ≠ [] then decodePageToken req.PageToken else .ok 0) = .ok start)
    (hp : p = if req.PageSize ≤ 0 then DefaultPageSize else req.PageSize)
    (hsize : req.PageSize ≤ maxInt)
    (hcall : (GetPaginatedFolders sampleData req).2 = .ok resp)
    (hnext : resp.NextToken ≠ []) :
    resp.NextToken = encodePageToken (start + p)
      ∧ 0 ≤ start ∧ 1 ≤ p ∧ start + p < (allFolders.length : Int) ∧ start + p ≤ maxInt := by
  obtain ⟨h0, hlen, hov⟩ :=
    getPaginated_ok_inv sampleData req allFolders start p resp hall hstart hp hsize hcall
  have hp1 : 1 ≤ p := by
    rw [hp]; unfold DefaultPageSize; split <;> omega
  rw [getPaginated_window sampleData req allFolders start p hall hstart hp h0 hlen hov] at hcall
  simp only [Outcome.ok.injEq] at hcall
  subst hcall
  dsimp only at hnext ⊢
  by_cases hmore : start + p < (allFolders.length : Int)
  · rw [if_pos hmore]
    exact ⟨rfl, h0, hp1, hmore, hov⟩
  · rw [if_neg hmore] at hnext
    exact absurd rfl hnext

theorem start_of_token (token : GoString) (s : Int)
    (htoken : (token = [] ∧ s = 0) ∨ (token ≠ [] ∧ decodePageToken token = .ok s)) :
    (if token ≠ [] then decodePageToken token else .ok 0) = .ok s := by
  rcases htoken with ⟨ht, hs⟩ | ⟨ht, hs⟩
  · rw [if_neg (by simpa using ht), hs]
  · rw [if_pos ht, hs]

/-! ## Claims: tokens across calls -/

/-- C14 (tokens are not bound to an organization), evaluated where the code departs from
it: a first page of size 1 for organization 7 returns the token "MQ==" (end offset 1);
replayed against organization 1, which has ten folders, with the largest page size, the
sum of start index and page size wraps around and the call panics instead of yielding
the window of organization 1. -/
theorem token_replay_overflow :
    (GetPaginatedFolders sixFolders { OrgID := 7, PageToken := [], PageSize := 1 }).2
        = .ok { Folders := [⟨1, 7⟩], NextToken := bytes "MQ==" }
      ∧ GetAllFolders tenFolders { OrgID := 1 } = .ok { Folders := tenFolders }
      ∧ (1 : Int) ≤ (tenFolders.length : Int)
      ∧ (9223372036854775807 : Int) = maxInt
      ∧ (GetPaginatedFolders tenFolders
          { OrgID := 1, PageToken := bytes "MQ==", PageSize := 9223372036854775807 }).2
          = .panicked := by
  decide

/-- Token replay where the sum fits. Let a call for organization A succeed with a non-empty
`NextToken`, and let `e` be its end offset. The token is `encodePageToken(e)`: it depends on
`e` alone, so any other successful call with the same end offset, for whatever
organization and folders, returns the same token. Supplied in a request for an
organization B with `len(allB) >= e`, and with `e + pageSize` not exceeding the largest
`int`, the token is accepted and the call yields `allB[e : min(e + pageSize, len(allB))]`. -/
theorem token_replay (dataA : List Folder) (reqA : PaginatedFetchFolderRequest)
    (allA : List Folder) (sA pA e : Int) (respA : PaginatedFetchFolderResponse)
    (dataB : List Folder) (orgB : UUID) (sizeB pB : Int) (allB : List Folder)
    (hallA : GetAllFolders dataA { OrgID := reqA.OrgID } = .ok { Folders := allA })
    (hpA : pA = if reqA.PageSize ≤ 0 then DefaultPageSize else reqA.PageSize)
    (hsizeA : reqA.PageSize ≤ maxInt)
    (htokenA : (reqA.PageToken = [] ∧ sA = 0)
      ∨ (reqA.PageToken ≠ [] ∧ decodePageToken reqA.PageToken = .ok sA))
    (hcallA : (GetPaginatedFolders dataA reqA).2 = .ok respA)
    (hnext : respA.NextToken ≠ [])
    (he : e = min (sA + pA) (allA.length : Int))
    (hallB : GetAllFolders dataB { OrgID := orgB } = .ok { Folders := allB })
    (hpB : pB = if sizeB ≤ 0 then DefaultPageSize else sizeB)
    (hlenB : e ≤ (allB.length : Int)) (hov : e + pB ≤ maxInt) :
    respA.NextToken = encodePageToken e
      ∧ decodePageToken respA.NextToken = .ok e
      ∧ (∀ (dataC : List Folder) (reqC : PaginatedFetchFolderRequest) (allC : List Folder)
            (sC : Int) (respC : PaginatedFetchFolderResponse),
          GetAllFolders dataC { OrgID := reqC.OrgID } = .ok { Folders := allC } →
          reqC.PageSize ≤ maxInt →
          ((reqC.PageToken = [] ∧ sC = 0)
            ∨ (reqC.PageToken ≠ [] ∧ decodePageToken reqC.PageToken = .ok sC)) →
          (GetPaginatedFolders dataC reqC).2 = .ok respC →
          respC.NextToken ≠ [] →
          min (sC + (if reqC.PageSize ≤ 0 then DefaultPageSize else reqC.PageSize))
            (allC.length : Int) = e →
          respC.NextToken = respA.NextToken)
      ∧ (GetPaginatedFolders dataB
            { OrgID := orgB, PageToken := respA.NextToken, PageSize := sizeB }).2
          = .ok { Folders := (allB.drop e.toNat).take
                    ((min (e + pB) (allB.length : Int)).toNat - e.toNat),
                  NextToken := if e + pB < (allB.length : Int)
                    then encodePageToken (e + pB) else [] } := by
  have hfetchA := fetch_of_getAll dataA reqA.OrgID allA hallA
  have hfetchB := fetch_of_getAll dataB orgB allB hallB
  obtain ⟨htok, h0, hp1, hlt, hmax⟩ := nextToken_of_ok dataA reqA allA sA pA respA hfetchA
    (start_of_token _ _ htokenA) hpA hsizeA hcallA hnext
  have hemin : e = sA + pA := by omega
  have hdec : decodePageToken respA.NextToken = .ok e := by
    rw [htok, hemin]; exact decode_encode _ (by omega) hmax
  refine ⟨by rw [htok, hemin], hdec, ?_, ?_⟩
  · intro dataC reqC allC sC respC hallC hsizeC htokenC hcallC hnextC heC
    have hfetchC := fetch_of_getAll dataC reqC.OrgID allC hallC
    obtain ⟨htokC, _, _, hltC, _⟩ := nextToken_of_ok dataC reqC allC sC _ respC hfetchC
      (start_of_token _ _ htokenC) rfl hsizeC hcallC hnextC
    rw [htokC, htok]
    congr 1
    omega
  · have hpB1 : 1 ≤ pB := by
      rw [hpB]; unfold DefaultPageSize; split <;> omega
    have hcallB := getPaginated_window dataB
      { OrgID := orgB, PageToken := respA.NextToken, PageSize := sizeB } allB e pB hfetchB
      (by dsimp only; rw [if_pos hnext, hdec]) hpB (by omega) hlenB hov
    rw [hcallB]
    dsimp only
    congr 2
    by_cases hgt : e + pB ≤ (allB.length : Int)
    · congr 1
      omega
    · rw [List.take_of_length_le, List.take_of_length_le]
      · rw [List.length_drop]; omega
      · rw [List.length_drop]; omega

/-- Instance of token replay: the token of a page of organization 7 replayed against
organization 1. -/
theorem token_replay_witness :
    GetAllFolders sixFolders { OrgID := 7 } = .ok { Folders := sixFolders }
      ∧ (GetPaginatedFolders sixFolders { OrgID := 7, PageToken := [], PageSize := 4 }).2
          = .ok { Folders := [⟨1, 7⟩, ⟨2, 7⟩, ⟨3, 7⟩, ⟨4, 7⟩], NextToken := bytes "NA==" }
      ∧ GetAllFolders tenFolders { OrgID := 1 } = .ok { Folders := tenFolders }
      ∧ (bytes "NA==" = encodePageToken 4
        ∧ decodePageToken (bytes "NA==") = .ok 4
        ∧ (∀ (dataC : List Folder) (reqC : PaginatedFetchFolderRequest) (allC : List Folder)
              (sC : Int) (respC : PaginatedFetchFolderResponse),
            GetAllFolders dataC { OrgID := reqC.OrgID } = .ok { Folders := allC } →
            reqC.PageSize ≤ maxInt →
            ((reqC.PageToken = [] ∧ sC = 0)
              ∨ (reqC.PageToken ≠ [] ∧ decodePageToken reqC.PageToken = .ok sC)) →
            (GetPaginatedFolders dataC reqC).2 = .ok respC →
            respC.NextToken ≠ [] →
            min (sC + (if reqC.PageSize ≤ 0 then DefaultPageSize else reqC.PageSize))
              (allC.length : Int) = 4 →
            respC.NextToken = bytes "NA==")
        ∧ (GetPaginatedFolders tenFolders
              { OrgID := 1, PageToken := bytes "NA==", PageSize := 3 }).2
            = .ok { Folders := (tenFolders.drop (4 : Int).toNat).take
                      ((min ((4 : Int) + 3) (tenFolders.length : Int)).toNat - (4 : Int).toNat),
                    NextToken := if (4 : Int) + 3 < (tenFolders.length : Int)
                      then encodePageToken (4 + 3) else [] }) :=
  ⟨by decide, by decide, by decide,
    token_replay sixFolders { OrgID := 7, PageToken := [], PageSize := 4 } sixFolders 0 4 4
      { Folders := [⟨1, 7⟩, ⟨2, 7⟩, ⟨3, 7⟩, ⟨4, 7⟩], NextToken := bytes "NA==" }
      tenFolders 1 3 3 tenFolders
      (by decide) (by decide) (by decide) (Or.inl ⟨rfl, rfl⟩) (by decide) (by decide)
      (by decide) (by decide) (by decide) (by decide) (by decide)⟩

/-! ## Helper lemmas: counting the calls of a traversal -/

theorem calls_last (m q : Nat) (hq : 0 < q) (hm : m ≤ q) : max 1 ((m + q - 1) / q) = 1 := by
  have h : (m + q - 1) / q < 2 := by
    rw [Nat.div_lt_iff_lt_mul hq]; omega
  omega

theorem calls_step (m q : Nat) (hq : 0 < q) (hm : q < m) :
    max 1 ((m + q - 1) / q) = max 1 ((m - q + q - 1) / q) + 1 := by
  have h1 : m + q - 1 = (m - 1) + q := by omega
  have h2 : m - q + q - 1 = m - 1 := by omega
  have h3 : 0 < (m - 1) / q := Nat.div_pos (by omega) hq
  rw [h1, h2, Nat.add_div_right _ hq]
  omega

/-- The recorded traversal resumed at offset `start`: with `r` calls still to make, the
loop ends exactly when the budget allows `r` calls, with the folders from `start` on and
the tokens `token, encode(start + p), encode(start + 2p), ...`. -/
theorem fetchAllPagesCalls_from (sampleData : List Folder) (orgID : UUID)
    (allFolders : List Folder) (p : Int)
    (hall : FetchAllFoldersByOrgID sampleData orgID = .ok allFolders)
    (hp1 : 1 ≤ p) (hbound : allFolders.length ≤ 4611686018427387904) :
    ∀ (fuel : Nat) (req : PaginatedFetchFolderRequest) (token : GoString) (start : Int)
      (acc : List Folder) (toks : List GoString) (r : Nat),
      req.OrgID = orgID →
      (p = if req.PageSize ≤ 0 then DefaultPageSize else req.PageSize) →
      (if token ≠ [] then decodePageToken token else .ok 0) = .ok start →
      0 ≤ start → start ≤ (allFolders.length : Int) → start + p ≤ maxInt →
      r = max 1 ((((allFolders.length : Int) - start).toNat + p.toNat - 1) / p.toNat) →
      fetchAllPagesCalls sampleData fuel req token acc toks
        = if r ≤ fuel then
            some (.ok (acc ++ allFolders.drop start.toNat,
              toks ++ token :: (List.range (r - 1)).map
                (fun (j : Nat) => encodePageToken (start + ((j : Int) + 1) * p))))
          else none := by
  intro fuel
  induction fuel with
  | zero =>
    intro req token start acc toks r _ _ _ _ _ _ hr
    rw [if_neg (by omega)]
    rfl
  | succ fuel ih =>
    intro req token start acc toks r horg hp hstart h0 hlen hov hr
    have hq : 0 < p.toNat := by omega
    have hcall := getPaginated_window sampleData { req with PageToken := token } allFolders start p
      (by rw [← horg] at hall; exact hall) hstart hp h0 hlen hov
    unfold fetchAllPagesCalls
    rw [hcall]
    dsimp only
    by_cases hmore : start + p < (allFolders.length : Int)
    · rw [if_pos hmore, if_neg (encodePageToken_ne_nil _)]
      have hstep := calls_step ((allFolders.length : Int) - start).toNat p.toNat hq (by omega)
      have hr1 : r = max 1 ((((allFolders.length : Int) - (start + p)).toNat + p.toNat - 1)
          / p.toNat) + 1 := by
        rw [hr, hstep]
        have : ((allFolders.length : Int) - start).toNat - p.toNat
            = ((allFolders.length : Int) - (start + p)).toNat := by omega
        rw [this]
      have hnext := ih { req with PageToken := token, PageSize := p } (encodePageToken (start + p))
        (start + p) (acc ++ (allFolders.drop start.toNat).take p.toNat) (toks ++ [token])
        (r - 1) horg
        (by dsimp only; rw [if_neg (by omega)])
        (by rw [if_pos (encodePageToken_ne_nil _)]; exact decode_encode _ (by omega) hov)
        (by omega) (by omega) (by unfold maxInt; omega) (by omega)
      rw [hnext]
      have hcond : (r - 1 ≤ fuel) = (r ≤ fuel + 1) := by
        apply propext; omega
      simp only [hcond]
      by_cases hle : r ≤ fuel + 1
      · rw [if_pos hle, if_pos hle]
        have hfolders : acc ++ (allFolders.drop start.toNat).take p.toNat
            ++ allFolders.drop (start + p).toNat = acc ++ allFolders.drop start.toNat := by
          rw [List.append_assoc]
          congr 1
          have hsplit : (start + p).toNat = start.toNat + p.toNat := by omega
          rw [hsplit, ← List.drop_drop, List.take_append_drop]
        have hrange : r - 1 = (r - 1 - 1) + 1 := by omega
        have htoks : toks ++ [token] ++ encodePageToken (start + p) ::
              (List.range (r - 1 - 1)).map
                (fun (j : Nat) => encodePageToken (start + p + ((j : Int) + 1) * p))
            = toks ++ token :: (List.range (r - 1)).map
                (fun (j : Nat) => encodePageToken (start + ((j : Int) + 1) * p)) := by
          rw [List.append_assoc, List.singleton_append]
          congr 2
          conv_rhs => rw [hrange, List.range_succ_eq_map, List.map_cons, List.map_map]
          congr 1
          · congr 1
            simp
          · apply List.map_congr_left
            intro j _
            simp only [Function.comp_apply, Nat.succ_eq_add_one, Nat.cast_add, Nat.cast_one]
            congr 1
            ring
        rw [hfolders, htoks]
      · rw [if_neg hle, if_neg hle]
    · rw [if_neg hmore]
      have hlast := calls_last ((allFolders.length : Int) - start).toNat p.toNat hq (by omega)
      have hr1 : r = 1 := by rw [hr, hlast]
      subst hr1
      rw [if_pos (by omega : 1 ≤ fuel + 1)]
      simp only [if_true, Nat.sub_self, List.range_zero, List.map_nil]
      congr 3
      rw [List.take_of_length_le]
      rw [List.length_drop]
      omega

/-- Offsets of the calls after the first lie inside the sequence: with `k` calls in all,
`(j + 1) * q < n` for `j + 1 < k`. -/
theorem call_offset_lt (n q k j : Nat) (hq : 0 < q) (hk : k = max 1 ((n + q - 1) / q))
    (hj : j + 1 < k) : (j + 1) * q < n := by
  have hk2 : k = (n + q - 1) / q := by omega
  have hdiv : (n + q - 1) / q * q ≤ n + q - 1 := Nat.div_mul_le_self _ _
  rw [← hk2] at hdiv
  obtain ⟨k1, rfl⟩ : ∃ k1, k = k1 + 1 := ⟨k - 1, by omega⟩
  have h1 : (j + 1) * q ≤ k1 * q := Nat.mul_le_mul_right q (by omega)
  have h2 : (k1 + 1) * q = k1 * q + q := by ring
  have hn : 0 < n := by
    by_contra hn0
    have hn0 : n = 0 := by omega
    subst hn0
    have : (0 + q - 1) / q = 0 := Nat.div_eq_of_lt (by omega)
    omega
  omega

/-! ## Claims: progress of a traversal -/

/-- C15 (strict progress of a traversal). For every call of `GetPaginatedFolders` with start
offset `s` and a page size of type `int`, a non-empty `NextToken` in the response decodes
to an offset `e` with `s < e < len`. Consequently a traversal with effective page size `p`
over a sequence of length `n` makes exactly `k = max(1, ceil(n / p))` calls before
`NextToken` is empty: a budget of `k` calls or more ends it with the full sequence, a
smaller budget does not; and the `i`-th call (from 0) starts at offset `i * p`. The length
bound `2^62` is met by every slice a Go program can hold in memory. -/
theorem strict_progress (sampleData : List Folder) (orgID : UUID) (pageSize : Int)
    (allFolders : List Folder) (p : Int) (k : Nat)
    (hall : GetAllFolders sampleData { OrgID := orgID } = .ok { Folders := allFolders })
    (hsize : pageSize ≤ maxInt)
    (hp : p = if pageSize ≤ 0 then DefaultPageSize else pageSize)
    (hbound : allFolders.length ≤ 4611686018427387904)
    (hk : k = max 1 ((allFolders.length + p.toNat - 1) / p.toNat)) :
    (∀ (token : GoString) (s : Int) (resp : PaginatedFetchFolderResponse),
        ((token = [] ∧ s = 0) ∨ (token ≠ [] ∧ decodePageToken token = .ok s)) →
        (GetPaginatedFolders sampleData
          { OrgID := orgID, PageToken := token, PageSize := pageSize }).2 = .ok resp →
        resp.NextToken ≠ [] →
        ∃ e : Int, decodePageToken resp.NextToken = .ok e ∧ s < e
          ∧ e < (allFolders.length : Int))
      ∧ ∃ toks : List GoString,
          (∀ fuel : Nat, k ≤ fuel →
            fetchAllPagesCalls sampleData fuel
              { OrgID := orgID, PageToken := [], PageSize := pageSize } [] [] []
              = some (.ok (allFolders, toks)))
          ∧ (∀ fuel : Nat, fuel < k →
            fetchAllPagesCalls sampleData fuel
              { OrgID := orgID, PageToken := [], PageSize := pageSize } [] [] [] = none)
          ∧ toks.length = k
          ∧ ∀ (i : Nat) (t : GoString), toks[i]? = some t →
              (if t ≠ [] then decodePageToken t else .ok 0) = .ok ((i : Int) * p) := by
  have hfetch := fetch_of_getAll sampleData orgID allFolders hall
  have hp1 : 1 ≤ p := by
    rw [hp]; unfold DefaultPageSize; split <;> omega
  have hpmax : p ≤ maxInt := by
    rw [hp]; unfold DefaultPageSize; split
    · unfold maxInt; omega
    · exact hsize
  have hq : 0 < p.toNat := by omega
  have hpq : (p.toNat : Int) = p := Int.toNat_of_nonneg (by omega)
  constructor
  · intro token s resp htoken hcall hnext
    obtain ⟨htok, h0, _, hlt, hmax⟩ := nextToken_of_ok sampleData
      { OrgID := orgID, PageToken := token, PageSize := pageSize } allFolders s p resp hfetch
      (start_of_token _ _ htoken) hp hsize hcall hnext
    exact ⟨s + p, by rw [htok]; exact decode_encode _ (by omega) hmax, by omega, hlt⟩
  · have hrun := fun fuel => fetchAllPagesCalls_from sampleData orgID allFolders p hfetch hp1
      hbound fuel { OrgID := orgID, PageToken := [], PageSize := pageSize } [] 0 [] [] k rfl hp
      (by simp) (le_refl _) (by omega) (by omega)
      (by rw [hk]; simp)
    simp only [Int.toNat_zero, List.drop_zero, List.nil_append, zero_add] at hrun
    refine ⟨[] :: List.map (fun (j : Nat) => encodePageToken (((j : Int) + 1) * p))
      (List.range (k - 1)), fun fuel hfuel => ?_, fun fuel hfuel => ?_, ?_, ?_⟩
    · rw [hrun fuel, if_pos hfuel]
    · rw [hrun fuel, if_neg (by omega)]
    · simp only [List.length_cons, List.length_map, List.length_range]
      omega
    · intro i t ht
      cases i with
      | zero =>
        simp only [List.getElem?_cons_zero, Option.some.injEq] at ht
        subst ht
        simp
      | succ j =>
        simp only [List.getElem?_cons_succ, List.getElem?_map, Option.map_eq_some'] at ht
        obtain ⟨j1, hj1, rfl⟩ := ht
        have hjr := List.getElem?_eq_some.mp hj1
        obtain ⟨hjlt, hjeq⟩ := hjr
        simp only [List.length_range] at hjlt
        simp only [List.getElem_range] at hjeq
        subst hjeq
        have hoff := call_offset_lt allFolders.length p.toNat k j hq hk (by omega)
        have hcast : ((j : Int) + 1) * p = (((j + 1) * p.toNat : Nat) : Int) := by
          push_cast; rw [hpq]
        rw [if_pos (encodePageToken_ne_nil _)]
        have hval : ((j + 1 : Nat) : Int) * p = ((j : Int) + 1) * p := by push_cast; ring
        rw [hval]
        exact decode_encode _ (by rw [hcast]; omega) (by rw [hcast]; unfold maxInt; omega)

/-- Witness for C15: six folders and page size 2 take three calls, at offsets 0, 2 and 4. -/
theorem strict_progress_witness :
    GetAllFolders sixFolders { OrgID := 7 } = .ok { Folders := sixFolders }
      ∧ (3 : Nat) = max 1 ((sixFolders.length + (2 : Int).toNat - 1) / (2 : Int).toNat)
      ∧ fetchAllPagesCalls sixFolders 3 { OrgID := 7, PageToken := [], PageSize := 2 } [] [] []
          = some (.ok (sixFolders, [[], bytes "Mg==", bytes "NA=="]))
      ∧ ((∀ (token : GoString) (s : Int) (resp : PaginatedFetchFolderResponse),
          ((token = [] ∧ s = 0) ∨ (token ≠ [] ∧ decodePageToken token = .ok s)) →
          (GetPaginatedFolders sixFolders
            { OrgID := 7, PageToken := token, PageSize := 2 }).2 = .ok resp →
          resp.NextToken ≠ [] →
          ∃ e : Int, decodePageToken resp.NextToken = .ok e ∧ s < e
            ∧ e < (sixFolders.length : Int))
        ∧ ∃ toks : List GoString,
            (∀ fuel : Nat, 3 ≤ fuel →
              fetchAllPagesCalls sixFolders fuel
                { OrgID := 7, PageToken := [], PageSize := 2 } [] [] []
                = some (.ok (sixFolders, toks)))
            ∧ (∀ fuel : Nat, fuel < 3 →
              fetchAllPagesCalls sixFolders fuel
                { OrgID := 7, PageToken := [], PageSize := 2 } [] [] [] = none)
            ∧ toks.length = 3
            ∧ ∀ (i : Nat) (t : GoString), toks[i]? = some t →
                (if t ≠ [] then decodePageToken t else .ok 0) = .ok ((i : Int) * 2)) :=
  ⟨by decide, by decide, by decide,
    strict_progress sixFolders 7 2 sixFolders 2 3 (by decide) (by decide) (by decide)
      (by decide) (by decide)⟩

end Folders
